import Mathlib

/-!
Verification development for the RefineDB core: a shallow embedding of the
storage planner (`src/rdb-analyzer/src/storage_plan/planner.rs`) and of the
treewalker executor (`src/rdb-analyzer/src/data/treewalker/exec.rs`), with
theorems settling the frozen claims about them.

Parts of the repository that the executor depends on are not present in the
source tree (`data/pathwalker.rs`, `data/kv.rs`, `data/value.rs`,
`storage_plan/mod.rs`); those are modelled from the specification, and each
such definition carries a doc comment saying so.
-/

/-- Byte strings: KV keys, KV values and storage keys are sequences of bytes,
modelled as lists of naturals. -/
abbrev Bytes := List Nat

/-- Strict lexicographic order on byte strings, the KV store's key order
(a proper prefix sorts before its extensions). -/
def byteLt : Bytes → Bytes → Bool
  | [], [] => false
  | [], _ :: _ => true
  | _ :: _, [] => false
  | a :: as, b :: bs => a < b || (a == b && byteLt as bs)

/-- Reflexive lexicographic order on byte strings. -/
def byteLe : Bytes → Bytes → Bool
  | [], _ => true
  | _ :: _, [] => false
  | a :: as, b :: bs => a < b || (a == b && byteLe as bs)

/-- Primitive leaf types of the schema (from `schema::compile::PrimitiveType`;
the file is not in the source tree, the constructors are those the executor
and the spec use). -/
inductive PrimitiveType where
  | int64
  | double
  | string
  | bytes
deriving DecidableEq, Repr

/-- Field annotations (`schema::compile::FieldAnnotation`): `@primary`,
`@packed` and `@rename_from(prev)` are the ones the planner and executor
consult. -/
inductive FieldAnn where
  | primary
  | packed
  | renameFrom (prev : String)
deriving DecidableEq, Repr

/-- Whether a single annotation is `@packed` (source `is_packed`). -/
def FieldAnn.is_packed : FieldAnn → Bool
  | .packed => true
  | _ => false

/-- Whether a single annotation is `@primary` (source `is_primary`). -/
def FieldAnn.is_primary : FieldAnn → Bool
  | .primary => true
  | _ => false

/-- Whether an annotation list contains `@packed`
(source `FieldAnnotationList::is_packed`). -/
def annsPacked (l : List FieldAnn) : Bool := l.any FieldAnn.is_packed

/-- Whether an annotation list contains `@primary`
(source `FieldAnnotationList::is_primary`). -/
def annsPrimary (l : List FieldAnn) : Bool := l.any FieldAnn.is_primary

/-- Storage plan node. Modelled from the spec (§3 "StorageNode"; the defining
file `storage_plan/mod.rs` is not in the source tree): `key` is the opaque
storage key, `flattened` inlines the children under the parent's prefix,
`subspace_reference` marks a back-edge into a recursive subtree, `packed`
stores the subtree as one value, `setChild` (source field `set`) is the set
element plan, `children` maps field names to child nodes. -/
inductive StorageNode where
  | mk (key : Bytes) (flattened : Bool) (subspace_reference : Bool)
      (packed : Bool) (setChild : Option StorageNode)
      (children : List (String × StorageNode))

/-- The storage key of a plan node. -/
def StorageNode.key : StorageNode → Bytes
  | .mk k _ _ _ _ _ => k

/-- The `flattened` flag of a plan node. -/
def StorageNode.flattened : StorageNode → Bool
  | .mk _ f _ _ _ _ => f

/-- The `subspace_reference` flag of a plan node. -/
def StorageNode.subspace_reference : StorageNode → Bool
  | .mk _ _ s _ _ _ => s

/-- The `packed` flag of a plan node. -/
def StorageNode.packed : StorageNode → Bool
  | .mk _ _ _ p _ _ => p

/-- The set element node of a plan node (source field `set`). -/
def StorageNode.setChild : StorageNode → Option StorageNode
  | .mk _ _ _ _ s _ => s

/-- The children of a plan node. -/
def StorageNode.children : StorageNode → List (String × StorageNode)
  | .mk _ _ _ _ _ c => c

/-- A storage plan: the map from export names to plan trees
(`StoragePlan { nodes }`). -/
structure StoragePlan where
  nodes : List (String × StorageNode)

/-- The empty storage plan (`Default::default()` for `StoragePlan`). -/
def StoragePlan.empty : StoragePlan := ⟨[]⟩

namespace Planner

/-- Schema field types as the planner sees them
(`schema::compile::FieldType`: `Primitive`, `Named`, `Set`, `Optional`).
Every occurrence carries an `id`, modelling the Rust pointer identity that
`field_type_key` extracts (`x as *const _ as usize`); structural equality in
the source ignores the pointer, so comparisons go through `tyEq` below. -/
inductive FieldType where
  | primitive (id : Nat) (p : PrimitiveType)
  | named (id : Nat) (name : String)
  | set (id : Nat) (inner : FieldType)
  | optional (id : Nat) (inner : FieldType)

/-- Pointer identity of a `FieldType` occurrence (source `field_type_key`). -/
def field_type_key : FieldType → Nat
  | .primitive i _ => i
  | .named i _ => i
  | .set i _ => i
  | .optional i _ => i

/-- Structural equality of field types, ignoring occurrence identity: this is
the derived `PartialEq` the source uses in `validate_type`. -/
def tyEq : FieldType → FieldType → Bool
  | .primitive _ p, .primitive _ q => p == q
  | .named _ a, .named _ b => a == b
  | .set _ x, .set _ y => tyEq x y
  | .optional _ x, .optional _ y => tyEq x y
  | _, _ => false

theorem tyEq_refl (t : FieldType) : tyEq t t = true := by
  induction t with
  | primitive i p => simp [tyEq]
  | named i n => simp [tyEq]
  | set i x ih => simpa [tyEq] using ih
  | optional i x ih => simpa [tyEq] using ih

/-- A named record type of the compiled schema
(`schema::compile::SpecializedType`): ordered fields, each with its type and
annotations. -/
structure SpecializedType where
  name : String
  fields : List (String × FieldType × List FieldAnn)

/-- The compiled schema as the planner consumes it
(`schema::compile::CompiledSchema`): named types and exports. -/
structure CompiledSchema where
  types : List (String × SpecializedType)
  exports : List (String × FieldType)

/-- The empty compiled schema (`Default::default()`). -/
def CompiledSchema.empty : CompiledSchema := ⟨[], []⟩

/-- Planner errors (`PlannerError`), plus fuel exhaustion of the embedding's
recursion bound. -/
inductive PlannerError where
  | missingType (name : String)
  | outOfFuel
deriving DecidableEq, Repr

/-- The planner's mutable state (`PlanState`): the used-key set, the set of
recursive type occurrences, the stack of named occurrences being generated
(`fields_in_stack`). `supply`/`supplyIdx` model the source's clock-and-RNG
key stream of `rand_storage_key`; `minted` is proof instrumentation recording
every freshly generated key. -/
structure PlanState where
  used : List Bytes
  recursive_types : List Nat
  fields_in_stack : List (Nat × Bytes)
  supply : Nat → Bytes
  supplyIdx : Nat
  minted : List Bytes

/-- Key minting (`rand_storage_key`): draw from the supply stream and re-roll
until the drawn key is absent from the used set; record it as used (and, as
instrumentation, as minted). -/
def rand_storage_key : Nat → PlanState → Except PlannerError (Bytes × PlanState)
  | 0, _ => .error .outOfFuel
  | fuel + 1, st =>
    let k := st.supply st.supplyIdx
    let st := { st with supplyIdx := st.supplyIdx + 1 }
    if k ∈ st.used then rand_storage_key fuel st
    else .ok (k, { st with used := k :: st.used, minted := k :: st.minted })

theorem rand_storage_key_spec :
    ∀ (fuel : Nat) (st : PlanState) (k : Bytes) (st' : PlanState),
      rand_storage_key fuel st = .ok (k, st') →
      st'.used = k :: st.used ∧ st'.minted = k :: st.minted ∧ k ∉ st.used ∧
        st'.recursive_types = st.recursive_types ∧
        st'.fields_in_stack = st.fields_in_stack ∧ st'.supply = st.supply := by
  intro fuel
  induction fuel with
  | zero => intro st k st' h; simp [rand_storage_key] at h
  | succ f ih =>
    intro st k st' h
    simp only [rand_storage_key] at h
    split at h
    · have hr := ih _ _ _ h
      simpa using hr
    · simp only [Except.ok.injEq, Prod.mk.injEq] at h
      obtain ⟨hk, hst⟩ := h
      subst hk; subst hst
      refine ⟨rfl, rfl, ?_, rfl, rfl, rfl⟩
      simpa using ‹¬ _›

/-- A point on the old plan tree (`OldTreePoint`): the candidate old node for
the field currently being generated. -/
structure OldTreePoint where
  name : String
  ty : FieldType
  anns : List FieldAnn
  node : StorageNode

/-- Source `OldTreePoint::reduce_optional`: strip one `Optional` layer off the
point's type if present. -/
def OldTreePoint.reduce_optional (p : OldTreePoint) : OldTreePoint :=
  match p.ty with
  | .optional _ x => { p with ty := x }
  | _ => p

/-- Source `OldTreePoint::reduce_set`: descend into the set element type and
the old node's element node; dropped when the old field was not a set or the
old node has no element node. -/
def OldTreePoint.reduce_set (p : OldTreePoint) : Option OldTreePoint :=
  match p.ty with
  | .set _ x =>
    match p.node.setChild with
    | some n => some { p with ty := x, node := n }
    | none => none
  | _ => none

/-- Source `OldTreePoint::validate_type`: the old point survives when its type
equals the expected type (mandatory→optional widening allowed) and the
`@packed` annotations agree. -/
def OldTreePoint.validate_type (p : OldTreePoint) (expected_ty : FieldType)
    (expected_anns : List FieldAnn) : Option OldTreePoint :=
  let mandatory_to_optional :=
    match expected_ty with
    | .optional _ x => tyEq x p.ty
    | _ => false
  if !(tyEq p.ty expected_ty) && !mandatory_to_optional then none
  else if annsPacked p.anns && !(annsPacked expected_anns) then none
  else if !(annsPacked p.anns) && annsPacked expected_anns then none
  else some p

/-- Source `OldTreePoint::resolve_subfield`: find the first alternative name
(`@rename_from` honoured by the caller building `altnames`) among the old
node's children, then look the subfield up in the old schema. -/
def OldTreePoint.resolve_subfield (p : OldTreePoint) (old_schema : CompiledSchema)
    (altnames : List String) : Option OldTreePoint :=
  match altnames.findSome? (fun a => (p.node.children.lookup a).map (fun c => (a, c))) with
  | none => none
  | some (nm, childNode) =>
    match p.ty with
    | .named _ typeName =>
      match old_schema.types.lookup typeName with
      | none => none
      | some ty =>
        match ty.fields.lookup nm with
        | none => none
        | some (childTy, childAnns) => some ⟨nm, childTy, childAnns, childNode⟩
    | _ => none

/-- The alternative old names of a subfield: its own name first, then every
`@rename_from` source (order as the source builds `altnames`). -/
def altnamesOf (fname : String) (fanns : List FieldAnn) : List String :=
  fname :: fanns.filterMap (fun a => match a with | .renameFrom x => some x | _ => none)

mutual

/-- Source `generate_field`: recursive descent over the new schema generating
a storage node per field, reusing the old point's key when one is given
(the caller has already validated it) and minting a fresh key otherwise.
Fuel bounds the recursion of the embedding; every recursive call decreases
it. -/
def generate_field (old_schema schema : CompiledSchema) :
    Nat → FieldType → List FieldAnn → Option OldTreePoint → PlanState →
    Except PlannerError (StorageNode × PlanState)
  | 0, _, _, _, _ => .error .outOfFuel
  | fuel + 1, field, anns, old_point, st =>
    match field with
    | .optional _ x =>
      generate_field old_schema schema fuel x anns
        (old_point.map OldTreePoint.reduce_optional) st
    | .named _ x =>
      if annsPacked anns then
        match old_point with
        | some p => .ok (.mk p.node.key false false true none [], st)
        | none => do
          let (k, st) ← rand_storage_key fuel st
          .ok (.mk k false false true none [], st)
      else
        match st.fields_in_stack.lookup (field_type_key field) with
        | some k => .ok (.mk k false true false none [], st)
        | none =>
          match schema.types.lookup x with
          | none => .error (.missingType x)
          | some ty => do
            let key := field_type_key field
            let (storage_key, st) ←
              match old_point with
              | some p => .ok (p.node.key, st)
              | none => rand_storage_key fuel st
            let isRec := key ∈ st.recursive_types
            let flattened := !isRec
            let st :=
              if isRec then
                { st with fields_in_stack := (key, storage_key) :: st.fields_in_stack }
              else st
            let (children, st) ←
              generate_subfields old_schema schema fuel ty.fields old_point st
            let st :=
              if isRec then
                { st with
                  fields_in_stack :=
                    st.fields_in_stack.eraseP (fun e => e.1 == key) }
              else st
            .ok (.mk storage_key flattened false false none children, st)
    | .primitive _ _ => do
      let (k, st) ←
        match old_point with
        | some p => .ok (p.node.key, st)
        | none => rand_storage_key fuel st
      .ok (.mk k false false false none [], st)
    | .set _ x => do
      let innerOld :=
        (old_point.bind OldTreePoint.reduce_set).bind
          (fun y => y.validate_type x anns)
      let (inner, st) ← generate_field old_schema schema fuel x anns innerOld st
      let (k, st) ←
        match old_point with
        | some p => .ok (p.node.key, st)
        | none => rand_storage_key fuel st
      .ok (.mk k false false false (some inner) [], st)

/-- The subfield loop of `generate_field`'s `Named` arm: for each subfield,
resolve and validate the old point (honouring `@rename_from` alternative
names), generate the child node, and collect the children in field order. -/
def generate_subfields (old_schema schema : CompiledSchema) :
    Nat → List (String × FieldType × List FieldAnn) → Option OldTreePoint →
    PlanState → Except PlannerError (List (String × StorageNode) × PlanState)
  | 0, _, _, _ => .error .outOfFuel
  | _ + 1, [], _, st => .ok ([], st)
  | fuel + 1, (fname, fty, fanns) :: rest, old_point, st => do
    let altnames := altnamesOf fname fanns
    let subPoint :=
      (old_point.bind (fun p => p.resolve_subfield old_schema altnames)).bind
        (fun q => q.validate_type fty fanns)
    let (child, st) ← generate_field old_schema schema fuel fty fanns subPoint st
    let (restChildren, st) ← generate_subfields old_schema schema fuel rest old_point st
    .ok ((fname, child) :: restChildren, st)

end

mutual

/-- Source `collect_storage_keys`: collect every storage key of an old plan
node into a sink. -/
def collect_storage_keys : StorageNode → List Bytes
  | .mk k _ _ _ s c =>
    k :: (match s with | some n => collect_storage_keys n | none => []) ++
      collectChildrenKeys c

/-- Storage keys of a children list (helper of `collect_storage_keys`). -/
def collectChildrenKeys : List (String × StorageNode) → List Bytes
  | [] => []
  | (_, n) :: rest => collect_storage_keys n ++ collectChildrenKeys rest

end

mutual

/-- Source `collect_recursive_types`: depth-first walk recording the identity
of every `Named` occurrence found while the same occurrence is already on the
walk's stack (`state`); `@packed` subtrees are not descended into. Returns
the updated sink of recursive occurrences. -/
def collect_recursive_types (schema : CompiledSchema) :
    Nat → FieldType → List Nat → List Nat → Except PlannerError (List Nat)
  | 0, _, _, _ => .error .outOfFuel
  | fuel + 1, ty, state, sink =>
    match ty with
    | .optional _ x => collect_recursive_types schema fuel x state sink
    | .set _ x => collect_recursive_types schema fuel x state sink
    | .primitive _ _ => .ok sink
    | .named _ x =>
      let type_key := field_type_key ty
      if type_key ∈ state then .ok (type_key :: sink)
      else
        match schema.types.lookup x with
        | none => .error (.missingType x)
        | some specialized_ty =>
          collect_recursive_fields schema fuel specialized_ty.fields
            (type_key :: state) sink

/-- The field loop of `collect_recursive_types`: walk every non-packed field
of a named type. -/
def collect_recursive_fields (schema : CompiledSchema) :
    Nat → List (String × FieldType × List FieldAnn) → List Nat → List Nat →
    Except PlannerError (List Nat)
  | 0, _, _, _ => .error .outOfFuel
  | _ + 1, [], _, sink => .ok sink
  | fuel + 1, (_, fty, fanns) :: rest, state, sink => do
    if annsPacked fanns then
      collect_recursive_fields schema fuel rest state sink
    else do
      let sink ← collect_recursive_types schema fuel fty state sink
      collect_recursive_fields schema fuel rest state sink

end

/-- The recursive-type discovery phase of `generate_plan_for_schema`: walk
every export with a fresh stack, accumulating one sink. -/
def collectAllRecursive (schema : CompiledSchema) :
    Nat → List (String × FieldType) → List Nat → Except PlannerError (List Nat)
  | 0, _, _ => .error .outOfFuel
  | _ + 1, [], sink => .ok sink
  | fuel + 1, (_, fty) :: rest, sink => do
    let sink ← collect_recursive_types schema fuel fty [] sink
    collectAllRecursive schema fuel rest sink

/-- The export loop of `generate_plan_for_schema`: per export, build the old
point from the old schema and old plan, validate it against the new export
field, and generate the node. -/
def generateExports (old_schema schema : CompiledSchema) (old_plan : StoragePlan) :
    Nat → List (String × FieldType) → PlanState →
    Except PlannerError (List (String × StorageNode) × PlanState)
  | 0, _, _ => .error .outOfFuel
  | _ + 1, [], st => .ok ([], st)
  | fuel + 1, (export_name, export_field) :: rest, st => do
    let old_point :=
      ((old_schema.exports.lookup export_name).bind (fun ty =>
          (old_plan.nodes.lookup export_name).map (fun node =>
            OldTreePoint.mk export_name ty [] node))).bind
        (fun x => x.validate_type export_field [])
    let (node, st) ← generate_field old_schema schema fuel export_field [] old_point st
    let (restNodes, st) ← generateExports old_schema schema old_plan fuel rest st
    .ok ((export_name, node) :: restNodes, st)

/-- All storage keys of an old plan (the "used" initialisation of
`generate_plan_for_schema`). -/
def planKeysAll (p : StoragePlan) : List Bytes :=
  p.nodes.foldr (fun e acc => collect_storage_keys e.2 ++ acc) []

/-- Source `generate_plan_for_schema`: collect recursive types, seed the used
set with every key of the old plan, then generate a node per export. The
final `PlanState` is returned alongside the plan so that theorems can speak
about the minted keys. -/
def generate_plan_for_schema (supply : Nat → Bytes) (fuel : Nat)
    (old_plan : StoragePlan) (old_schema schema : CompiledSchema) :
    Except PlannerError (StoragePlan × PlanState) := do
  let recursive_types ← collectAllRecursive schema fuel schema.exports []
  let st : PlanState :=
    { used := planKeysAll old_plan
      recursive_types := recursive_types
      fields_in_stack := []
      supply := supply
      supplyIdx := 0
      minted := [] }
  let (nodes, st) ← generateExports old_schema schema old_plan fuel schema.exports st
  .ok (⟨nodes⟩, st)

end Planner

namespace Planner

/-- Witness fixture: a planner state whose stack holds occurrence 5 with key
`[9]`. -/
def stackStW : PlanState :=
  { used := [], recursive_types := [], fields_in_stack := [(5, [9])]
    supply := fun _ => [0], supplyIdx := 0, minted := [] }

/-- Witness fixture: a planner state with an empty stack whose recursive set
holds occurrence 7. -/
def recStW : PlanState :=
  { used := [], recursive_types := [7], fields_in_stack := []
    supply := fun _ => [0], supplyIdx := 0, minted := [] }

/-- Witness fixture: a schema with one empty named type `T`. -/
def schemaTW : CompiledSchema := ⟨[("T", ⟨"T", []⟩)], [("root", .named 7 "T")]⟩

end Planner

/-- C5: in `generate_field`, a non-packed `Named` field whose type identity is
on the recursion stack produces a `subspace_reference` node with empty
children, `flattened = false`, and the key assigned to the enclosing
occurrence; any other non-packed `Named` field produces a node with
`subspace_reference = false` whose `flattened` flag is false exactly when the
occurrence is in the recursive set. -/
theorem named_field_node_shape (os s : Planner.CompiledSchema) (fuel i : Nat)
    (x : String) (anns : List FieldAnn) (op : Option Planner.OldTreePoint)
    (st : Planner.PlanState)
    (hp : annsPacked anns = false) :
    (∀ k, st.fields_in_stack.lookup i = some k →
      Planner.generate_field os s (fuel + 1) (.named i x) anns op st =
        .ok (.mk k false true false none [], st)) ∧
    (∀ node st', st.fields_in_stack.lookup i = none →
      Planner.generate_field os s (fuel + 1) (.named i x) anns op st =
        .ok (node, st') →
      node.subspace_reference = false ∧ node.packed = false ∧
        (node.flattened = false ↔ i ∈ st.recursive_types)) := by
  constructor
  · intro k hs
    simp [Planner.generate_field, hp, Planner.field_type_key, hs]
  · intro node st' hs h
    simp only [Planner.generate_field, hp, Planner.field_type_key, hs,
      Bool.false_eq_true, if_false] at h
    rcases hty : s.types.lookup x with _ | ty <;> rw [hty] at h
    · simp at h
    · rcases op with _ | p
      · simp only [bind, Except.bind] at h
        rcases hsk : Planner.rand_storage_key fuel st with e | ⟨sk, st1⟩ <;>
          rw [hsk] at h
        · simp at h
        · have hrec := (Planner.rand_storage_key_spec fuel st sk st1 hsk).2.2.2.1
          rcases hch : Planner.generate_subfields os s fuel ty.fields none
              (if i ∈ st1.recursive_types then
                { st1 with fields_in_stack := (i, sk) :: st1.fields_in_stack }
              else st1) with e | ⟨children, st2⟩ <;>
            simp only [hch] at h
          · simp at h
          · simp only [Except.ok.injEq, Prod.mk.injEq] at h
            obtain ⟨hnode, _⟩ := h
            subst hnode
            simp [StorageNode.subspace_reference, StorageNode.packed,
              StorageNode.flattened, hrec]
      · simp only [bind, Except.bind] at h
        rcases hch : Planner.generate_subfields os s fuel ty.fields (some p)
            (if i ∈ st.recursive_types then
              { st with fields_in_stack := (i, p.node.key) :: st.fields_in_stack }
            else st) with e | ⟨children, st2⟩ <;>
          simp only [hch] at h
        · simp at h
        · simp only [Except.ok.injEq, Prod.mk.injEq] at h
          obtain ⟨hnode, _⟩ := h
          subst hnode
          simp [StorageNode.subspace_reference, StorageNode.packed,
            StorageNode.flattened]

/-- Witness for C5, at concrete inputs: the stack-hit case emits the back-edge
node with the enclosing key `[9]`, and a recursive occurrence not on the stack
gets `flattened = false`. -/
theorem named_field_node_shape_witness :
    (Planner.generate_field Planner.schemaTW Planner.schemaTW 3 (.named 5 "T")
        [] none Planner.stackStW =
      .ok (.mk [9] false true false none [], Planner.stackStW)) ∧
    ((StorageNode.mk [0] true false false none []).subspace_reference = false ∧
      (StorageNode.mk [0] true false false none []).packed = false ∧
      ((StorageNode.mk [0] true false false none []).flattened = false ↔
        5 ∈ Planner.recStW.recursive_types)) := by
  constructor
  · exact (named_field_node_shape Planner.schemaTW Planner.schemaTW 2 5 "T" []
      none Planner.stackStW rfl).1 [9] rfl
  · exact (named_field_node_shape Planner.schemaTW Planner.schemaTW 2 5 "T" []
      none Planner.recStW rfl).2 (.mk [0] true false false none [])
      { used := [[0]], recursive_types := [7], fields_in_stack := []
        supply := fun _ => [0], supplyIdx := 1, minted := [[0]] } rfl rfl

mutual

/-- The storage keys of every node of a plan tree that is not a subspace
reference (back-edge nodes repeat the key of the enclosing occurrence by
construction, so uniqueness can only hold away from them). -/
def nodeNonRefKeys : StorageNode → List Bytes
  | .mk k _ sref _ s c =>
    (if sref then [] else [k]) ++
      (match s with | some n => nodeNonRefKeys n | none => []) ++
      nodeNonRefKeysL c

/-- Non-back-edge storage keys of a children list. -/
def nodeNonRefKeysL : List (String × StorageNode) → List Bytes
  | [] => []
  | (_, n) :: rest => nodeNonRefKeys n ++ nodeNonRefKeysL rest

end

/-- Non-back-edge storage keys of a whole plan. -/
def planNonRefKeys (p : StoragePlan) : List Bytes :=
  p.nodes.foldr (fun e acc => nodeNonRefKeys e.2 ++ acc) []

namespace Planner

/-- Counterexample fixture for C4: a self-recursive schema
`type T { next: T } export T root;`, with distinct occurrence ids. -/
def schemaC4 : CompiledSchema :=
  ⟨[("T", ⟨"T", [("next", .named 1 "T", [])]⟩)], [("root", .named 0 "T")]⟩

/-- Counterexample fixture for C4: a deterministic key supply. -/
def supplyC4 : Nat → Bytes := fun i => [i]

end Planner

/-- Counterexample for C4 as stated: on the recursive schema
`type T { next: T }` the generated plan repeats a storage key — the back-edge
node carries the same key as the enclosing recursive occurrence — so storage
keys are not unique across all nodes of the plan. -/
theorem plan_keys_unique_counterexample :
    ∃ p st, Planner.generate_plan_for_schema Planner.supplyC4 20
        StoragePlan.empty Planner.CompiledSchema.empty Planner.schemaC4 =
        .ok (p, st) ∧
      ¬ (Planner.planKeysAll p).Nodup :=
  ⟨_, _, rfl, by decide⟩

namespace Planner

/-- Evolution facts of the planner state across a generation step: the used
set only grows, minted keys persist, and every newly minted key was fresh
with respect to the starting used set. -/
def StEvol (st st' : PlanState) : Prop :=
  (∀ k, k ∈ st.used → k ∈ st'.used) ∧
  (∀ k, k ∈ st.minted → k ∈ st'.minted) ∧
  (∀ k, k ∈ st'.minted → k ∈ st.minted ∨ (k ∈ st'.used ∧ k ∉ st.used))

/-- Every minted key has been recorded in the used set. -/
def MintedUsed (st : PlanState) : Prop := ∀ k, k ∈ st.minted → k ∈ st.used

/-- The keys `ks` were all minted between states `st` and `st'`, and are
pairwise distinct. -/
def FreshKeys (ks : List Bytes) (st st' : PlanState) : Prop :=
  ks.Nodup ∧ ∀ k, k ∈ ks → (k ∈ st'.minted ∧ k ∉ st.minted)

theorem stEvol_of_eq {st st' : PlanState} (hu : st'.used = st.used)
    (hm : st'.minted = st.minted) : StEvol st st' := by
  refine ⟨?_, ?_, ?_⟩ <;> intro k hk <;> simp_all

theorem stEvol_refl (st : PlanState) : StEvol st st := stEvol_of_eq rfl rfl

theorem stEvol_trans {s1 s2 s3 : PlanState} (h1 : StEvol s1 s2)
    (h2 : StEvol s2 s3) : StEvol s1 s3 := by
  obtain ⟨u1, m1, n1⟩ := h1
  obtain ⟨u2, m2, n2⟩ := h2
  refine ⟨fun k hk => u2 k (u1 k hk), fun k hk => m2 k (m1 k hk), ?_⟩
  intro k hk
  rcases n2 k hk with h | ⟨hin, hout⟩
  · rcases n1 k h with h' | ⟨hin', hout'⟩
    · exact Or.inl h'
    · exact Or.inr ⟨u2 k hin', hout'⟩
  · right
    refine ⟨hin, fun hc => hout (u1 k hc)⟩

theorem stEvol_mintedUsed {st st' : PlanState} (h : StEvol st st')
    (hm : MintedUsed st) : MintedUsed st' := by
  intro k hk
  rcases h.2.2 k hk with h' | ⟨hin, _⟩
  · exact h.1 k (hm k h')
  · exact hin

theorem freshKeys_nil (st st' : PlanState) : FreshKeys [] st st' := by
  exact ⟨List.nodup_nil, by simp⟩

theorem freshKeys_congr {ks : List Bytes} {st st' t t' : PlanState}
    (h : FreshKeys ks st st') (hm : t.minted = st.minted)
    (hm' : t'.minted = st'.minted) : FreshKeys ks t t' := by
  refine ⟨h.1, fun k hk => ?_⟩
  rw [hm, hm']
  exact h.2 k hk

theorem freshKeys_append {ks1 ks2 : List Bytes} {s1 s2 s3 : PlanState}
    (h1 : FreshKeys ks1 s1 s2) (h2 : FreshKeys ks2 s2 s3)
    (e12 : StEvol s1 s2) (e23 : StEvol s2 s3) :
    FreshKeys (ks1 ++ ks2) s1 s3 := by
  obtain ⟨nd1, f1⟩ := h1
  obtain ⟨nd2, f2⟩ := h2
  constructor
  · rw [List.nodup_append]
    refine ⟨nd1, nd2, ?_⟩
    intro k hk1 hk2
    exact (f2 k hk2).2 (f1 k hk1).1
  · intro k hk
    rcases List.mem_append.mp hk with h | h
    · exact ⟨e23.2.1 k (f1 k h).1, (f1 k h).2⟩
    · refine ⟨(f2 k h).1, fun hc => (f2 k h).2 (e12.2.1 k hc)⟩

theorem freshKeys_cons_head {ks : List Bytes} {k : Bytes} {s1 s2 s3 : PlanState}
    (h : FreshKeys ks s1 s2) (e12 : StEvol s1 s2) (e23 : StEvol s2 s3)
    (hm1 : MintedUsed s1) (hm2 : MintedUsed s2)
    (hk3 : k ∈ s3.minted) (hk2 : k ∉ s2.used) :
    FreshKeys (k :: ks) s1 s3 := by
  obtain ⟨nd, f⟩ := h
  constructor
  · rw [List.nodup_cons]
    refine ⟨fun hc => hk2 (hm2 k (f k hc).1), nd⟩
  · intro j hj
    rcases List.mem_cons.mp hj with rfl | hj'
    · refine ⟨hk3, fun hc => hk2 (e12.1 j (hm1 j hc))⟩
    · exact ⟨e23.2.1 j (f j hj').1, (f j hj').2⟩

theorem rand_storage_key_evol {fuel : Nat} {st st' : PlanState} {k : Bytes}
    (h : rand_storage_key fuel st = .ok (k, st')) :
    StEvol st st' ∧ k ∈ st'.minted ∧ k ∉ st.used ∧ k ∈ st'.used := by
  obtain ⟨hu, hm, hk, _, _, _⟩ := rand_storage_key_spec fuel st k st' h
  refine ⟨⟨?_, ?_, ?_⟩, ?_, hk, ?_⟩
  · intro j hj; rw [hu]; exact List.mem_cons_of_mem _ hj
  · intro j hj; rw [hm]; exact List.mem_cons_of_mem _ hj
  · intro j hj
    rw [hm] at hj
    rcases List.mem_cons.mp hj with rfl | hj'
    · right
      rw [hu]
      exact ⟨List.mem_cons_self _ _, hk⟩
    · exact Or.inl hj'
  · rw [hm]; exact List.mem_cons_self _ _
  · rw [hu]; exact List.mem_cons_self _ _

end Planner
namespace Planner

theorem freshKeys_single {k : Bytes} {st st' : PlanState}
    (h1 : k ∈ st'.minted) (h2 : k ∉ st.used) (hm : MintedUsed st) :
    FreshKeys [k] st st' := by
  refine ⟨List.nodup_singleton k, fun j hj => ?_⟩
  rcases List.mem_singleton.mp hj with rfl
  exact ⟨h1, fun hc => h2 (hm j hc)⟩

theorem gf_fresh (os s : CompiledSchema) :
    ∀ fuel : Nat,
      (∀ field anns op st node st',
        generate_field os s fuel field anns op st = .ok (node, st') →
        StEvol st st' ∧
          (op = none → MintedUsed st →
            FreshKeys (nodeNonRefKeys node) st st')) ∧
      (∀ flds op st nodes st',
        generate_subfields os s fuel flds op st = .ok (nodes, st') →
        StEvol st st' ∧
          (op = none → MintedUsed st →
            FreshKeys (nodeNonRefKeysL nodes) st st')) := by
  intro fuel
  induction fuel with
  | zero =>
    constructor
    · intro field anns op st node st' h
      simp [generate_field] at h
    · intro flds op st nodes st' h
      simp [generate_subfields] at h
  | succ f ih =>
    constructor
    · intro field anns op st node st' h
      cases field with
      | optional i x =>
        simp only [generate_field] at h
        obtain ⟨he, hf⟩ := ih.1 _ _ _ _ _ _ h
        exact ⟨he, fun ho hm => by subst ho; exact hf rfl hm⟩
      | primitive i p =>
        cases op with
        | some q =>
          simp only [generate_field, bind, Except.bind, Except.ok.injEq,
            Prod.mk.injEq] at h
          obtain ⟨h1, h2⟩ := h
          subst h1; subst h2
          exact ⟨stEvol_refl st, fun ho _ => by cases ho⟩
        | none =>
          simp only [generate_field, bind, Except.bind] at h
          split at h
          · exact Except.noConfusion h
          · rename_i v hr
            obtain ⟨k, st1⟩ := v
            simp only [Except.ok.injEq, Prod.mk.injEq] at h
            obtain ⟨h1, h2⟩ := h
            subst h1; subst h2
            obtain ⟨he, hkm, hku, _⟩ := rand_storage_key_evol hr
            refine ⟨he, fun _ hm => ?_⟩
            simpa [nodeNonRefKeys, nodeNonRefKeysL] using
              freshKeys_single hkm hku hm
      | named i x =>
        cases op with
        | some q =>
          simp only [generate_field, bind, Except.bind, field_type_key] at h
          by_cases hpk : annsPacked anns = true
          · simp only [hpk, if_true] at h
            simp only [Except.ok.injEq, Prod.mk.injEq] at h
            obtain ⟨h1, h2⟩ := h
            subst h1; subst h2
            exact ⟨stEvol_refl st, fun ho _ => by cases ho⟩
          · simp only [hpk, Bool.false_eq_true, if_false] at h
            rcases hstk : st.fields_in_stack.lookup i with _ | k
            · simp only [hstk] at h
              rcases hty : s.types.lookup x with _ | ty
              · simp only [hty] at h
                exact Except.noConfusion h
              · simp only [hty] at h
                split at h
                · exact Except.noConfusion h
                · rename_i v hch
                  obtain ⟨children, st2⟩ := v
                  simp only [Except.ok.injEq, Prod.mk.injEq] at h
                  obtain ⟨h1, h2⟩ := h
                  subst h1; subst h2
                  obtain ⟨he2, _⟩ := ih.2 _ _ _ _ _ hch
                  refine ⟨?_, fun ho _ => by cases ho⟩
                  refine stEvol_trans (stEvol_trans ?_ he2) ?_ <;>
                    exact stEvol_of_eq (by split <;> rfl) (by split <;> rfl)
            · simp only [hstk] at h
              simp only [Except.ok.injEq, Prod.mk.injEq] at h
              obtain ⟨h1, h2⟩ := h
              subst h1; subst h2
              exact ⟨stEvol_refl st, fun ho _ => by cases ho⟩
        | none =>
          simp only [generate_field, bind, Except.bind, field_type_key] at h
          by_cases hpk : annsPacked anns = true
          · simp only [hpk, if_true] at h
            split at h
            · exact Except.noConfusion h
            · rename_i v hr
              obtain ⟨k, st1⟩ := v
              simp only [Except.ok.injEq, Prod.mk.injEq] at h
              obtain ⟨h1, h2⟩ := h
              subst h1; subst h2
              obtain ⟨he, hkm, hku, _⟩ := rand_storage_key_evol hr
              refine ⟨he, fun _ hm => ?_⟩
              simpa [nodeNonRefKeys, nodeNonRefKeysL] using
                freshKeys_single hkm hku hm
          · simp only [hpk, Bool.false_eq_true, if_false] at h
            rcases hstk : st.fields_in_stack.lookup i with _ | k
            · simp only [hstk] at h
              rcases hty : s.types.lookup x with _ | ty
              · simp only [hty] at h
                exact Except.noConfusion h
              · simp only [hty] at h
                split at h
                · exact Except.noConfusion h
                · rename_i v hr
                  obtain ⟨sk, st1⟩ := v
                  dsimp only at h
                  split at h
                  · exact Except.noConfusion h
                  · rename_i v2 hch
                    obtain ⟨children, st2⟩ := v2
                    simp only [Except.ok.injEq, Prod.mk.injEq] at h
                    obtain ⟨h1, h2⟩ := h
                    subst h1; subst h2
                    obtain ⟨he1, hkm, hku, _⟩ := rand_storage_key_evol hr
                    obtain ⟨he2, hf2⟩ := ih.2 _ _ _ _ _ hch
                    have hePmid : StEvol st1
                        (if i ∈ st1.recursive_types then
                          { st1 with fields_in_stack :=
                              (i, sk) :: st1.fields_in_stack }
                        else st1) :=
                      stEvol_of_eq (by split <;> rfl) (by split <;> rfl)
                    refine ⟨stEvol_trans he1 (stEvol_trans hePmid
                      (stEvol_trans he2 (stEvol_of_eq (by split <;> rfl)
                        (by split <;> rfl)))), fun _ hm => ?_⟩
                    have hm1 : MintedUsed st1 := stEvol_mintedUsed he1 hm
                    have hmP := stEvol_mintedUsed hePmid hm1
                    have hfreshCh :
                        FreshKeys (nodeNonRefKeysL children) st1 st2 :=
                      freshKeys_congr (hf2 rfl hmP) (by split <;> rfl) rfl
                    have hfresh1 : FreshKeys [sk] st st1 :=
                      freshKeys_single hkm hku hm
                    have hfa := freshKeys_append hfresh1 hfreshCh he1
                      (stEvol_trans hePmid he2)
                    refine freshKeys_congr ?_ rfl (by split <;> rfl)
                    simpa [nodeNonRefKeys] using hfa
            · simp only [hstk] at h
              simp only [Except.ok.injEq, Prod.mk.injEq] at h
              obtain ⟨h1, h2⟩ := h
              subst h1; subst h2
              refine ⟨stEvol_refl st, fun _ _ => ?_⟩
              simpa [nodeNonRefKeys, nodeNonRefKeysL] using freshKeys_nil st st
      | set i x =>
        cases op with
        | some q =>
          simp only [generate_field, bind, Except.bind] at h
          split at h
          · exact Except.noConfusion h
          · rename_i v hin
            obtain ⟨inner, st1⟩ := v
            simp only [Except.ok.injEq, Prod.mk.injEq] at h
            obtain ⟨h1, h2⟩ := h
            subst h1; subst h2
            obtain ⟨he1, _⟩ := ih.1 _ _ _ _ _ _ hin
            exact ⟨he1, fun ho _ => by cases ho⟩
        | none =>
          simp only [generate_field, bind, Except.bind] at h
          split at h
          · exact Except.noConfusion h
          · rename_i v hin
            obtain ⟨inner, st1⟩ := v
            split at h
            · exact Except.noConfusion h
            · rename_i v2 hr
              obtain ⟨k, st2⟩ := v2
              simp only [Except.ok.injEq, Prod.mk.injEq] at h
              obtain ⟨h1, h2⟩ := h
              subst h1; subst h2
              obtain ⟨he1, hf1⟩ := ih.1 _ _ _ _ _ _ hin
              obtain ⟨he2, hkm, hku, _⟩ := rand_storage_key_evol hr
              refine ⟨stEvol_trans he1 he2, fun _ hm => ?_⟩
              have hm1 : MintedUsed st1 := stEvol_mintedUsed he1 hm
              have hfin : FreshKeys (nodeNonRefKeys inner) st st1 := hf1 rfl hm
              simpa [nodeNonRefKeys, nodeNonRefKeysL] using
                freshKeys_cons_head hfin he1 he2 hm hm1 hkm hku
    · intro flds op st nodes st' h
      cases flds with
      | nil =>
        simp only [generate_subfields, Except.ok.injEq, Prod.mk.injEq] at h
        obtain ⟨h1, h2⟩ := h
        subst h1; subst h2
        exact ⟨stEvol_refl st, fun _ _ => by
          simpa [nodeNonRefKeysL] using freshKeys_nil st st⟩
      | cons fld rest =>
        obtain ⟨fname, fty, fanns⟩ := fld
        simp only [generate_subfields, bind, Except.bind] at h
        split at h
        · exact Except.noConfusion h
        · rename_i v hc
          obtain ⟨child, st1⟩ := v
          split at h
          · exact Except.noConfusion h
          · rename_i v2 hrest
            obtain ⟨restCh, st2⟩ := v2
            simp only [Except.ok.injEq, Prod.mk.injEq] at h
            obtain ⟨h1, h2⟩ := h
            subst h1; subst h2
            obtain ⟨he1, hf1⟩ := ih.1 _ _ _ _ _ _ hc
            obtain ⟨he2, hf2⟩ := ih.2 _ _ _ _ _ hrest
            refine ⟨stEvol_trans he1 he2, fun ho hm => ?_⟩
            subst ho
            have hm1 : MintedUsed st1 := stEvol_mintedUsed he1 hm
            have hfa := freshKeys_append (hf1 rfl hm) (hf2 rfl hm1) he1 he2
            simpa [nodeNonRefKeysL] using hfa

end Planner

namespace Planner

theorem gexp_fresh (os s : CompiledSchema) (old_plan : StoragePlan) :
    ∀ fuel exps st nodes st',
      generateExports os s old_plan fuel exps st = .ok (nodes, st') →
      StEvol st st' ∧
        (os.exports = [] → MintedUsed st →
          FreshKeys (planNonRefKeys ⟨nodes⟩) st st') := by
  intro fuel
  induction fuel with
  | zero =>
    intro exps st nodes st' h
    simp [generateExports] at h
  | succ f ih =>
    intro exps st nodes st' h
    cases exps with
    | nil =>
      simp only [generateExports, Except.ok.injEq, Prod.mk.injEq] at h
      obtain ⟨h1, h2⟩ := h
      subst h1; subst h2
      exact ⟨stEvol_refl st, fun _ _ => by
        simpa [planNonRefKeys] using freshKeys_nil st st⟩
    | cons e rest =>
      obtain ⟨export_name, export_field⟩ := e
      simp only [generateExports, bind, Except.bind] at h
      split at h
      · exact Except.noConfusion h
      · rename_i v hgen
        obtain ⟨node, st1⟩ := v
        split at h
        · exact Except.noConfusion h
        · rename_i v2 hrest
          obtain ⟨restNodes, st2⟩ := v2
          simp only [Except.ok.injEq, Prod.mk.injEq] at h
          obtain ⟨h1, h2⟩ := h
          subst h1; subst h2
          obtain ⟨he1, hf1⟩ := (gf_fresh os s f).1 _ _ _ _ _ _ hgen
          obtain ⟨he2, hf2⟩ := ih _ _ _ _ hrest
          refine ⟨stEvol_trans he1 he2, fun ho hm => ?_⟩
          have hop : ((os.exports.lookup export_name).bind (fun ty =>
              (old_plan.nodes.lookup export_name).map (fun nd =>
                OldTreePoint.mk export_name ty [] nd))).bind
              (fun x => x.validate_type export_field []) = none := by
            rw [ho]
            rfl
          have hm1 : MintedUsed st1 := stEvol_mintedUsed he1 hm
          have hfa := freshKeys_append (hf1 hop hm) (hf2 ho hm1) he1 he2
          simpa [planNonRefKeys] using hfa

end Planner

/-- Amended C4: in `generate_plan_for_schema`, every freshly minted storage
key is distinct from every key of the provided prior plan, and when the old
schema has no exports (in particular for `generate_plan(∅, ∅, S)`) the storage
keys of all nodes that are not subspace references are pairwise distinct.
Subspace-reference back-edge nodes are excluded: by construction they repeat
the key assigned to the enclosing occurrence of their type. -/
theorem plan_keys_unique_amended (supply : Nat → Bytes) (fuel : Nat)
    (old_plan : StoragePlan) (old_schema schema : Planner.CompiledSchema)
    (plan : StoragePlan) (st' : Planner.PlanState)
    (h : Planner.generate_plan_for_schema supply fuel old_plan old_schema
      schema = .ok (plan, st')) :
    (∀ k, k ∈ st'.minted → k ∉ Planner.planKeysAll old_plan) ∧
      (old_schema.exports = [] → (planNonRefKeys plan).Nodup) := by
  simp only [Planner.generate_plan_for_schema, bind, Except.bind] at h
  split at h
  · exact Except.noConfusion h
  · rename_i rec hrec
    split at h
    · exact Except.noConfusion h
    · rename_i v hexp
      obtain ⟨nodes, stF⟩ := v
      simp only [Except.ok.injEq, Prod.mk.injEq] at h
      obtain ⟨h1, h2⟩ := h
      subst h1; subst h2
      obtain ⟨he, hf⟩ :=
        Planner.gexp_fresh old_schema schema old_plan fuel _ _ _ _ hexp
      constructor
      · intro k hk hkold
        rcases he.2.2 k hk with hc | ⟨_, hnotin⟩
        · simp at hc
        · exact hnotin hkold
      · intro ho
        exact (hf ho (fun k hk => by simp at hk)).1

/-- Witness for the amended C4, at the concrete recursive schema of the
counterexample: the run succeeds, its minted keys avoid the (empty) old
plan's keys, and the non-back-edge keys are pairwise distinct. -/
theorem plan_keys_unique_amended_witness :
    (∀ k, k ∈ ([[1], [0]] : List Bytes) →
      k ∉ Planner.planKeysAll StoragePlan.empty) ∧
      (Planner.CompiledSchema.empty.exports = [] →
        (planNonRefKeys
          ⟨[("root", .mk [0] true false false none
            [("next", .mk [1] false false false none
              [("next", .mk [1] false true false none [])])])]⟩).Nodup) :=
  plan_keys_unique_amended Planner.supplyC4 20 StoragePlan.empty
    Planner.CompiledSchema.empty Planner.schemaC4 _ _ rfl

namespace Planner

/-- Schema well-formedness used by the migration theorem: field names within
each named type are distinct, as they are in the source's `IndexMap`. -/
def SchemaWF (s : CompiledSchema) : Prop :=
  ∀ p ∈ s.types, ((p.2).fields.map Prod.fst).Nodup

theorem lookup_mem {β : Type} {l : List (String × β)} {a : String} {b : β}
    (h : l.lookup a = some b) : (a, b) ∈ l := by
  induction l with
  | nil => simp [List.lookup] at h
  | cons hd tl ih =>
    obtain ⟨x, y⟩ := hd
    cases hax : a == x
    · simp only [List.lookup, hax] at h
      exact List.mem_cons_of_mem _ (ih h)
    · simp only [List.lookup, hax, Option.some.injEq] at h
      have hax' : a = x := by simpa using hax
      subst hax'; subst h
      exact List.mem_cons_self _ _

theorem lookup_of_mem_nodup {β : Type} {l : List (String × β)} {a : String}
    {b : β} (hnd : (l.map Prod.fst).Nodup) (hmem : (a, b) ∈ l) :
    l.lookup a = some b := by
  induction l with
  | nil => simp at hmem
  | cons hd tl ih =>
    obtain ⟨x, y⟩ := hd
    simp only [List.map_cons, List.nodup_cons] at hnd
    rcases List.mem_cons.mp hmem with h | h
    · rcases Prod.mk.injEq .. ▸ h with ⟨h1, h2⟩
      subst h1; subst h2
      simp [List.lookup]
    · have hax : a ≠ x := by
        intro hc
        subst hc
        exact hnd.1 (List.mem_map.mpr ⟨(a, b), h, rfl⟩)
      have hbeq : (a == x) = false := beq_eq_false_iff_ne.mpr hax
      simp only [List.lookup, hbeq]
      exact ih hnd.2 h

theorem validate_type_self (n : String) (t : FieldType) (a : List FieldAnn)
    (nd : StorageNode) :
    (OldTreePoint.mk n t a nd).validate_type t a =
      some (OldTreePoint.mk n t a nd) := by
  cases hb : annsPacked a <;>
    simp [OldTreePoint.validate_type, tyEq_refl, hb]

end Planner

namespace Planner

mutual

/-- Structural correspondence between an old plan node and a schema field:
`Fits schema recs stack field anns node` says `node` is the storage node the
planner produces for `field` with annotations `anns`, when the recursive set
is `recs` and the named occurrences on the generation stack carry the keys in
`stack`. An old plan generated by the planner for the same schema satisfies
this relation; key values are arbitrary. -/
inductive Fits (schema : CompiledSchema) (recs : List Nat) :
    List (Nat × Bytes) → FieldType → List FieldAnn → StorageNode → Prop where
  | optionalF {stack : List (Nat × Bytes)} {i : Nat} {x : FieldType}
      {anns : List FieldAnn} {node : StorageNode} :
      Fits schema recs stack x anns node →
      Fits schema recs stack (.optional i x) anns node
  | packedF {stack : List (Nat × Bytes)} {i : Nat} {x : String}
      {anns : List FieldAnn} {k : Bytes} :
      annsPacked anns = true →
      Fits schema recs stack (.named i x) anns (.mk k false false true none [])
  | backedge {stack : List (Nat × Bytes)} {i : Nat} {x : String}
      {anns : List FieldAnn} {k : Bytes} :
      annsPacked anns = false → stack.lookup i = some k →
      Fits schema recs stack (.named i x) anns (.mk k false true false none [])
  | namedF {stack : List (Nat × Bytes)} {i : Nat} {x : String}
      {anns : List FieldAnn} {k : Bytes} {ty : SpecializedType}
      {children : List (String × StorageNode)} :
      annsPacked anns = false → stack.lookup i = none →
      schema.types.lookup x = some ty →
      FitsFields schema recs (if i ∈ recs then (i, k) :: stack else stack)
        ty.fields children →
      Fits schema recs stack (.named i x) anns
        (.mk k (!decide (i ∈ recs)) false false none children)
  | primitiveF {stack : List (Nat × Bytes)} {i : Nat} {p : PrimitiveType}
      {anns : List FieldAnn} {k : Bytes} :
      Fits schema recs stack (.primitive i p) anns
        (.mk k false false false none [])
  | setF {stack : List (Nat × Bytes)} {i : Nat} {x : FieldType}
      {anns : List FieldAnn} {k : Bytes} {inner : StorageNode} :
      Fits schema recs stack x anns inner →
      Fits schema recs stack (.set i x) anns
        (.mk k false false false (some inner) [])

/-- The children correspondence of a named type: each subfield fits its child
node, names in order. -/
inductive FitsFields (schema : CompiledSchema) (recs : List Nat) :
    List (Nat × Bytes) → List (String × FieldType × List FieldAnn) →
    List (String × StorageNode) → Prop where
  | nil {stack : List (Nat × Bytes)} : FitsFields schema recs stack [] []
  | cons {stack : List (Nat × Bytes)} {fname : String} {fty : FieldType}
      {fanns : List FieldAnn}
      {rest : List (String × FieldType × List FieldAnn)} {c : StorageNode}
      {cs : List (String × StorageNode)} :
      Fits schema recs stack fty fanns c →
      FitsFields schema recs stack rest cs →
      FitsFields schema recs stack ((fname, fty, fanns) :: rest)
        ((fname, c) :: cs)

end

/-- The export-level correspondence: each export field of the schema fits the
old plan's node for that export. -/
inductive FitsExports (schema : CompiledSchema) (recs : List Nat) :
    List (String × FieldType) → List (String × StorageNode) → Prop where
  | nil : FitsExports schema recs [] []
  | cons {en : String} {ef : FieldType} {n : StorageNode}
      {rest : List (String × FieldType)} {ns : List (String × StorageNode)} :
      Fits schema recs [] ef [] n →
      FitsExports schema recs rest ns →
      FitsExports schema recs ((en, ef) :: rest) ((en, n) :: ns)

theorem fitsFields_names {schema : CompiledSchema} {recs : List Nat}
    {stack : List (Nat × Bytes)} :
    ∀ {flds : List (String × FieldType × List FieldAnn)}
      {kids : List (String × StorageNode)},
      FitsFields schema recs stack flds kids →
      kids.map Prod.fst = flds.map Prod.fst := by
  intro flds
  induction flds with
  | nil =>
    intro kids h
    cases h
    rfl
  | cons hd tl ih =>
    intro kids h
    obtain ⟨fn, ft, fa⟩ := hd
    cases h with
    | cons hf hrest => simpa using ih hrest

theorem fitsFields_zip_name {schema : CompiledSchema} {recs : List Nat}
    {stack : List (Nat × Bytes)} :
    ∀ {flds : List (String × FieldType × List FieldAnn)}
      {kids : List (String × StorageNode)},
      FitsFields schema recs stack flds kids →
      ∀ pr ∈ flds.zip kids, pr.2.1 = pr.1.1 := by
  intro flds
  induction flds with
  | nil =>
    intro kids h pr hpr
    cases h
    simp at hpr
  | cons hd tl ih =>
    intro kids h pr hpr
    obtain ⟨fn, ft, fa⟩ := hd
    cases h with
    | cons hf hrest =>
      rcases List.mem_cons.mp (by simpa [List.zip] using hpr) with he | he
      · rw [he]
      · exact ih hrest _ he

theorem fitsFields_lookups {schema : CompiledSchema} {recs : List Nat}
    {stack : List (Nat × Bytes)} {flds : List (String × FieldType × List FieldAnn)}
    {kids : List (String × StorageNode)}
    (h : FitsFields schema recs stack flds kids)
    (hnd : (flds.map Prod.fst).Nodup) :
    ∀ pr ∈ flds.zip kids,
      kids.lookup pr.1.1 = some pr.2.2 ∧ flds.lookup pr.1.1 = some pr.1.2 := by
  intro pr hpr
  have hmemf : (pr.1.1, pr.1.2) ∈ flds := by
    have := List.of_mem_zip hpr
    exact this.1
  have hndk : (kids.map Prod.fst).Nodup := by
    rw [fitsFields_names h]; exact hnd
  have hmemk : (pr.1.1, pr.2.2) ∈ kids := by
    have hk := (List.of_mem_zip hpr).2
    have hn : pr.2.1 = pr.1.1 := fitsFields_zip_name h pr hpr
    rw [← hn]
    exact hk
  exact ⟨lookup_of_mem_nodup hndk hmemk, lookup_of_mem_nodup hnd hmemf⟩

theorem resolve_subfield_found {pn : String} {i : Nat} {tn : String}
    {panns : List FieldAnn} {pnode : StorageNode} {schema : CompiledSchema}
    {ty : SpecializedType} {fname : String} {fty : FieldType}
    {fanns fanns' : List FieldAnn} {c : StorageNode}
    (htyl : schema.types.lookup tn = some ty)
    (hchild : pnode.children.lookup fname = some c)
    (hfield : ty.fields.lookup fname = some (fty, fanns)) :
    (OldTreePoint.mk pn (.named i tn) panns pnode).resolve_subfield schema
      (altnamesOf fname fanns') = some (OldTreePoint.mk fname fty fanns c) := by
  simp [OldTreePoint.resolve_subfield, altnamesOf, List.findSome?, hchild,
    htyl, hfield]

end Planner
namespace Planner

theorem gf_reuse (schema : CompiledSchema) (hwf : SchemaWF schema) :
    ∀ fuel : Nat,
      (∀ field anns pt st node st',
        Fits schema st.recursive_types st.fields_in_stack field anns
          pt.node →
        pt.ty = field → pt.anns = anns →
        generate_field schema schema fuel field anns (some pt) st =
          .ok (node, st') →
        node = pt.node ∧ st' = st) ∧
      (∀ (i : Nat) (tn : String) (ty : SpecializedType) flds kids pt st nodes
          st',
        pt.ty = FieldType.named i tn →
        schema.types.lookup tn = some ty →
        FitsFields schema st.recursive_types st.fields_in_stack flds kids →
        (∀ pr ∈ flds.zip kids,
          pt.node.children.lookup pr.1.1 = some pr.2.2 ∧
            ty.fields.lookup pr.1.1 = some pr.1.2) →
        generate_subfields schema schema fuel flds (some pt) st =
          .ok (nodes, st') →
        nodes = kids ∧ st' = st) := by
  intro fuel
  induction fuel with
  | zero =>
    constructor
    · intro field anns pt st node st' _ _ _ h
      simp [generate_field] at h
    · intro i tn ty flds kids pt st nodes st' _ _ _ _ h
      simp [generate_subfields] at h
  | succ f ih =>
    constructor
    · intro field anns pt st node st' hf hty hanns h
      obtain ⟨pn, pty, panns, pnode⟩ := pt
      simp only at hty hanns hf h
      subst hty; subst hanns
      cases hf with
      | optionalF hf' =>
        rename_i i x
        have hred : Option.map OldTreePoint.reduce_optional
            (some (OldTreePoint.mk pn (.optional i x) panns pnode)) =
            some (OldTreePoint.mk pn x panns pnode) := rfl
        simp only [generate_field] at h
        rw [hred] at h
        exact ih.1 x panns (OldTreePoint.mk pn x panns pnode) st node st' hf'
          rfl rfl h
      | packedF hpk =>
        simp only [generate_field, hpk, if_true] at h
        simp only [Except.ok.injEq, Prod.mk.injEq] at h
        obtain ⟨h1, h2⟩ := h
        subst h1; subst h2
        exact ⟨rfl, rfl⟩
      | backedge hpk hstk =>
        simp only [generate_field, hpk, Bool.false_eq_true, if_false,
          field_type_key, hstk] at h
        simp only [Except.ok.injEq, Prod.mk.injEq] at h
        obtain ⟨h1, h2⟩ := h
        subst h1; subst h2
        exact ⟨rfl, rfl⟩
      | namedF hpk hstk htyl hff =>
        rename_i i x k tyv kids0
        simp only [generate_field, hpk, Bool.false_eq_true, if_false,
          field_type_key, hstk, htyl, bind, Except.bind] at h
        have hnd : (tyv.fields.map Prod.fst).Nodup :=
          hwf _ (lookup_mem htyl)
        have hsub := fitsFields_lookups hff hnd
        by_cases hrec : i ∈ st.recursive_types
        · simp only [if_pos hrec] at h hff
          split at h
          · exact Except.noConfusion h
          · rename_i v hch
            obtain ⟨childrenGen, st2⟩ := v
            simp only [Except.ok.injEq, Prod.mk.injEq] at h
            obtain ⟨h1, h2⟩ := h
            subst h1; subst h2
            obtain ⟨hcg, hst2⟩ :=
              ih.2 _ _ _ _ _ _ _ _ _ rfl htyl (by exact hff) (by exact hsub)
                hch
            subst hcg; subst hst2
            refine ⟨rfl, ?_⟩
            rw [List.eraseP_cons_of_pos (by simp)]
        · simp only [if_neg hrec] at h hff
          split at h
          · exact Except.noConfusion h
          · rename_i v hch
            obtain ⟨childrenGen, st2⟩ := v
            simp only [Except.ok.injEq, Prod.mk.injEq] at h
            obtain ⟨h1, h2⟩ := h
            subst h1; subst h2
            obtain ⟨hcg, hst2⟩ :=
              ih.2 _ _ _ _ _ _ _ _ _ rfl htyl (by exact hff) (by exact hsub)
                hch
            subst hcg; subst hst2
            exact ⟨rfl, rfl⟩
      | primitiveF =>
        simp only [generate_field, bind, Except.bind] at h
        simp only [Except.ok.injEq, Prod.mk.injEq] at h
        obtain ⟨h1, h2⟩ := h
        subst h1; subst h2
        exact ⟨rfl, rfl⟩
      | setF hf' =>
        rename_i i x k inner
        simp only [generate_field, bind, Except.bind, Option.bind,
          OldTreePoint.reduce_set, StorageNode.setChild] at h
        rw [validate_type_self] at h
        split at h
        · exact Except.noConfusion h
        · rename_i v hin
          obtain ⟨innerGen, st1⟩ := v
          simp only [Except.ok.injEq, Prod.mk.injEq] at h
          obtain ⟨h1, h2⟩ := h
          subst h1; subst h2
          obtain ⟨hi1, hi2⟩ := ih.1 _ _ _ _ _ _ hf' rfl rfl hin
          subst hi1; subst hi2
          exact ⟨rfl, rfl⟩
    · intro i tn ty flds kids pt st nodes st' hpt htyl hff hsub h
      obtain ⟨pn, pty, panns, pnode⟩ := pt
      simp only at hpt h hsub
      subst hpt
      cases hff with
      | nil =>
        simp only [generate_subfields, Except.ok.injEq, Prod.mk.injEq] at h
        obtain ⟨h1, h2⟩ := h
        subst h1; subst h2
        exact ⟨rfl, rfl⟩
      | cons hf0 hrest =>
        rename_i fname fty fanns rest c cs
        have hhead := hsub ((fname, fty, fanns), (fname, c))
          (by simp [List.zip])
        simp only [generate_subfields, bind, Except.bind] at h
        have hPoint : (((some (OldTreePoint.mk pn (.named i tn) panns
              pnode)).bind
            (fun p => p.resolve_subfield schema (altnamesOf fname fanns))).bind
              (fun q => q.validate_type fty fanns)) =
            some (OldTreePoint.mk fname fty fanns c) := by
          rw [show ((some (OldTreePoint.mk pn (.named i tn) panns
              pnode)).bind
            (fun p => p.resolve_subfield schema (altnamesOf fname fanns))) =
            (OldTreePoint.mk pn (.named i tn) panns pnode).resolve_subfield
              schema (altnamesOf fname fanns) from rfl]
          rw [resolve_subfield_found htyl hhead.1 hhead.2]
          rw [show ((some (OldTreePoint.mk fname fty fanns c)).bind
            (fun q => q.validate_type fty fanns)) =
            (OldTreePoint.mk fname fty fanns c).validate_type fty fanns
            from rfl]
          exact validate_type_self fname fty fanns c
        rw [hPoint] at h
        split at h
        · exact Except.noConfusion h
        · rename_i v hc
          obtain ⟨child, st1⟩ := v
          split at h
          · exact Except.noConfusion h
          · rename_i v2 hrestgen
            obtain ⟨restNodes, st2⟩ := v2
            simp only [Except.ok.injEq, Prod.mk.injEq] at h
            obtain ⟨h1, h2⟩ := h
            subst h1; subst h2
            obtain ⟨hc1, hc2⟩ := ih.1 _ _ _ _ _ _ hf0 rfl rfl hc
            subst hc1; subst hc2
            obtain ⟨hr1, hr2⟩ := ih.2 _ _ _ _ _ _ _ _ _ rfl htyl hrest
              (fun pr hpr => hsub pr (List.mem_cons_of_mem _ hpr)) hrestgen
            subst hr1; subst hr2
            exact ⟨rfl, rfl⟩

end Planner

namespace Planner

theorem gexp_reuse (schema : CompiledSchema) (old_plan : StoragePlan)
    (hwf : SchemaWF schema) :
    ∀ fuel exps ns st nodes st',
      st.fields_in_stack = [] →
      FitsExports schema st.recursive_types exps ns →
      (∀ pr ∈ exps.zip ns,
        schema.exports.lookup pr.1.1 = some pr.1.2 ∧
          old_plan.nodes.lookup pr.1.1 = some pr.2.2) →
      generateExports schema schema old_plan fuel exps st = .ok (nodes, st') →
      nodes = ns ∧ st' = st := by
  intro fuel
  induction fuel with
  | zero =>
    intro exps ns st nodes st' _ _ _ h
    simp [generateExports] at h
  | succ f ih =>
    intro exps ns st nodes st' hstk0 hfit hlk h
    cases hfit with
    | nil =>
      simp only [generateExports, Except.ok.injEq, Prod.mk.injEq] at h
      obtain ⟨h1, h2⟩ := h
      subst h1; subst h2
      exact ⟨rfl, rfl⟩
    | cons hfit0 hrest =>
      rename_i en ef n rest ns0
      have hhead := hlk ((en, ef), (en, n)) (by simp [List.zip])
      simp only [generateExports, bind, Except.bind] at h
      have hPoint : (((schema.exports.lookup en).bind (fun ty =>
            (old_plan.nodes.lookup en).map (fun node =>
              OldTreePoint.mk en ty [] node))).bind
            (fun x => x.validate_type ef [])) =
          some (OldTreePoint.mk en ef [] n) := by
        rw [hhead.1, hhead.2]
        rw [show ((some ef).bind (fun ty =>
            (some n).map (fun node => OldTreePoint.mk en ty [] node))) =
          some (OldTreePoint.mk en ef [] n) from rfl]
        rw [show ((some (OldTreePoint.mk en ef [] n)).bind
            (fun x => x.validate_type ef [])) =
          (OldTreePoint.mk en ef [] n).validate_type ef [] from rfl]
        exact validate_type_self en ef [] n
      rw [hPoint] at h
      split at h
      · exact Except.noConfusion h
      · rename_i v hgen
        obtain ⟨node, st1⟩ := v
        split at h
        · exact Except.noConfusion h
        · rename_i v2 hrestgen
          obtain ⟨restNodes, st2⟩ := v2
          simp only [Except.ok.injEq, Prod.mk.injEq] at h
          obtain ⟨h1, h2⟩ := h
          subst h1; subst h2
          have hfit0' : Fits schema st.recursive_types st.fields_in_stack ef
              [] (OldTreePoint.mk en ef [] n).node := by
            rw [hstk0]
            exact hfit0
          obtain ⟨hg1, hg2⟩ := (gf_reuse schema hwf f).1 _ _ _ _ _ _ hfit0'
            rfl rfl hgen
          subst hg1; subst hg2
          obtain ⟨hr1, hr2⟩ := ih _ _ _ _ _ hstk0 hrest
            (fun pr hpr => hlk pr (List.mem_cons_of_mem _ hpr)) hrestgen
          subst hr1; subst hr2
          exact ⟨rfl, rfl⟩

end Planner

/-- C3: when the old schema is (structurally) the same schema, plan
generation reuses every storage key of the old plan that is reachable under
an identical type. `FitsExports` renders "the old plan is a plan for this
schema": each export's old node structurally corresponds to the export's
field type. Under it, every node of the new plan is exactly the corresponding
old node — in particular it carries the old node's storage key — and no fresh
key is minted at all (the minted instrumentation list stays empty and the key
supply is never consulted). -/
theorem plan_migration_reuses_identical_keys (supply : Nat → Bytes)
    (fuel : Nat) (old_plan : StoragePlan) (schema : Planner.CompiledSchema)
    (plan : StoragePlan) (st' : Planner.PlanState)
    (rec : List Nat) (ns : List (String × StorageNode))
    (hwf : Planner.SchemaWF schema)
    (hrec : Planner.collectAllRecursive schema fuel schema.exports [] =
      .ok rec)
    (hfits : Planner.FitsExports schema rec schema.exports ns)
    (hlk : ∀ pr ∈ schema.exports.zip ns,
      schema.exports.lookup pr.1.1 = some pr.1.2 ∧
        old_plan.nodes.lookup pr.1.1 = some pr.2.2)
    (h : Planner.generate_plan_for_schema supply fuel old_plan schema schema =
      .ok (plan, st')) :
    plan.nodes = ns ∧ st'.minted = [] ∧ st'.supplyIdx = 0 := by
  simp only [Planner.generate_plan_for_schema, bind, Except.bind, hrec] at h
  split at h
  · exact Except.noConfusion h
  · rename_i v hexp
    obtain ⟨nodes, stF⟩ := v
    simp only [Except.ok.injEq, Prod.mk.injEq] at h
    obtain ⟨h1, h2⟩ := h
    subst h1; subst h2
    obtain ⟨hn, hst⟩ := Planner.gexp_reuse schema old_plan hwf fuel
      schema.exports ns _ nodes stF rfl hfits hlk hexp
    subst hn; subst hst
    exact ⟨rfl, rfl, rfl⟩

namespace Planner

/-- Witness fixture: schema `type Item { a: int64 } export Item item;` with
distinct occurrence ids. -/
def schemaItemW : CompiledSchema :=
  ⟨[("Item", ⟨"Item", [("a", .primitive 1 .int64, [])]⟩)],
    [("item", .named 0 "Item")]⟩

/-- Witness fixture: a deterministic key supply. -/
def supplyW : Nat → Bytes := fun i => [i]

/-- Witness fixture: the plan the planner itself generates for `schemaItemW`
from nothing, used as the old plan of a migration. -/
def oldPlanW : StoragePlan :=
  ⟨[("item", .mk [0] true false false none
    [("a", .mk [1] false false false none [])])]⟩

end Planner

/-- Witness for C3 at a concrete schema and its previously generated plan:
regenerating against the identical schema returns exactly the old nodes and
mints no key. -/
theorem plan_migration_reuses_identical_keys_witness :
    ∃ plan st',
      Planner.generate_plan_for_schema Planner.supplyW 10 Planner.oldPlanW
          Planner.schemaItemW Planner.schemaItemW = .ok (plan, st') ∧
        plan.nodes = Planner.oldPlanW.nodes ∧ st'.minted = [] := by
  have hfits : Planner.FitsExports Planner.schemaItemW []
      Planner.schemaItemW.exports Planner.oldPlanW.nodes := by
    refine Planner.FitsExports.cons ?_ Planner.FitsExports.nil
    refine Planner.Fits.namedF rfl rfl rfl ?_
    exact Planner.FitsFields.cons Planner.Fits.primitiveF
      Planner.FitsFields.nil
  have h := plan_migration_reuses_identical_keys Planner.supplyW 10
    Planner.oldPlanW Planner.schemaItemW _ _ [] Planner.oldPlanW.nodes
    (by
      intro p hp
      simp only [Planner.schemaItemW, List.mem_singleton] at hp
      subst hp
      simp)
    rfl hfits
    (by
      intro pr hpr
      simp only [Planner.schemaItemW, Planner.oldPlanW, List.zip,
        List.zipWith, List.mem_singleton] at hpr
      subst hpr
      exact ⟨rfl, rfl⟩)
    rfl
  exact ⟨_, _, rfl, h.1, h.2.1⟩

namespace Exec

/-- Primitive runtime values (`data::value::PrimitiveValue`; the file is not
in the source tree — constructors are those the executor and spec use, with
`Double` kept as its raw 64-bit pattern as the spec requires). -/
inductive PrimitiveValue where
  | int64 (v : Int)
  | double (bits : Nat)
  | string (s : String)
  | bytes (b : List Nat)
deriving DecidableEq, Repr

/-- The primitive type of a primitive value (source `get_type`). -/
def PrimitiveValue.get_type : PrimitiveValue → PrimitiveType
  | .int64 _ => .int64
  | .double _ => .double
  | .string _ => .string
  | .bytes _ => .bytes

/-- Byte model of a string: its characters' code points. Modelled from the
spec: stands in for the terminated UTF-8 of §4.2; only injectivity and
round-tripping matter to the claims. -/
def strBytes (s : String) : List Nat := s.data.map Char.toNat

/-- Big-endian fixed-width bytes of a natural number. -/
def natToBytesBE : Nat → Nat → Bytes
  | 0, _ => []
  | len + 1, n => natToBytesBE len (n / 256) ++ [n % 256]

/-- Order-preserving primary-key serialization (source
`serialize_for_key_component`, from `data/value.rs` which is not in the
source tree). Modelled from the spec: big-endian offset binary for integers,
terminated bytes for strings and byte strings. -/
def PrimitiveValue.serialize_for_key_component : PrimitiveValue → Bytes
  | .int64 v => natToBytesBE 8 ((v + 2 ^ 63).toNat % 2 ^ 64)
  | .double bits => natToBytesBE 8 (bits % 2 ^ 64)
  | .string s => strBytes s ++ [0]
  | .bytes b => b ++ [0]

/-- Base-256 little-endian digits, fuel-bounded by the number itself. -/
def natDigitsAux : Nat → Nat → List Nat
  | 0, _ => []
  | _ + 1, 0 => []
  | f + 1, n + 1 => ((n + 1) % 256) :: natDigitsAux f ((n + 1) / 256)

/-- Base-256 little-endian digits of a natural number. -/
def natDigits (n : Nat) : List Nat := natDigitsAux n n

/-- A number from its base-256 little-endian digits. -/
def natFromDigits : List Nat → Nat
  | [] => 0
  | d :: r => d + 256 * natFromDigits r

/-- At-rest primitive encoding: a model of the MessagePack serialization
(`rmp_serde`) the executor stores primitive values with. The spec requires
only a compact self-describing binary form that round-trips on all
primitives; this tag-plus-payload form is such a form. -/
def encodePrim : PrimitiveValue → List Nat
  | .int64 v => if v ≥ 0 then 0 :: natDigits v.toNat else 1 :: natDigits (-v).toNat
  | .double b => 2 :: natDigits b
  | .string s => 3 :: strBytes s
  | .bytes b => 4 :: b

/-- A string back from its code points. -/
def strOfBytes (l : List Nat) : String := ⟨l.map Char.ofNat⟩

/-- Decoding of the at-rest primitive encoding; `none` models an `rmp_serde`
decode error. -/
def decodePrim : List Nat → Option PrimitiveValue
  | 0 :: rest => some (.int64 (Int.ofNat (natFromDigits rest)))
  | 1 :: rest => some (.int64 (-(Int.ofNat (natFromDigits rest))))
  | 2 :: rest => some (.double (natFromDigits rest))
  | 3 :: rest => some (.string (strOfBytes rest))
  | 4 :: rest => some (.bytes rest)
  | _ => none

theorem natFromDigits_natDigitsAux :
    ∀ (f n : Nat), n ≤ f → natFromDigits (natDigitsAux f n) = n := by
  intro f
  induction f with
  | zero =>
    intro n hn
    interval_cases n
    rfl
  | succ f ih =>
    intro n hn
    cases n with
    | zero => rfl
    | succ m =>
      have hlt : (m + 1) / 256 ≤ f := by
        have h1 : (m + 1) / 256 < m + 1 := Nat.div_lt_self (Nat.succ_pos m) (by omega)
        omega
      simp only [natDigitsAux, natFromDigits]
      rw [ih _ hlt]
      omega

theorem natFromDigits_natDigits (n : Nat) :
    natFromDigits (natDigits n) = n :=
  natFromDigits_natDigitsAux n n le_rfl

theorem strOfBytes_strBytes (s : String) : strOfBytes (strBytes s) = s := by
  cases s with
  | mk data =>
    simp only [strOfBytes, strBytes, List.map_map]
    congr 1
    induction data with
    | nil => rfl
    | cons c rest ih =>
      simp only [List.map_cons, Function.comp_apply, ih]
      congr 1
      exact Char.ofNat_toNat c

theorem decodePrim_encodePrim (v : PrimitiveValue) :
    decodePrim (encodePrim v) = some v := by
  cases v with
  | int64 i =>
    by_cases hi : i ≥ 0
    · simp only [encodePrim, if_pos hi, decodePrim, natFromDigits_natDigits,
        Int.ofNat_eq_coe, Int.toNat_of_nonneg hi]
    · have h2 : (0 : Int) ≤ -i := by omega
      simp only [encodePrim, if_neg hi, decodePrim, natFromDigits_natDigits,
        Int.ofNat_eq_coe, Int.toNat_of_nonneg h2, neg_neg]
  | double b => simp [encodePrim, decodePrim, natFromDigits_natDigits]
  | string s => simp [encodePrim, decodePrim, strOfBytes_strBytes]
  | bytes b => simp [encodePrim, decodePrim]

end Exec

namespace Exec

/-- Runtime types (`VmType` in `vm_value.rs`). -/
inductive VmTy where
  | primitive (p : PrimitiveType)
  | table (name : String)
  | set (ty : VmTy)
  | null
  | bool
  | list (t : VmTy)
  | map (fields : List (String × VmTy))
  | oneOf (ts : List VmTy)
  | unknown
  | schema

/-- Schema-side field types as the executor sees them (`FieldType` of
`schema/compile.rs`, which is not in the source tree; constructors are the
four the planner's `FieldType` also exposes, without planner identities). -/
inductive EFieldType where
  | primitive (p : PrimitiveType)
  | table (name : String)
  | set (inner : EFieldType)
  | optional (inner : EFieldType)
deriving DecidableEq, Repr

/-- `VmType::from(&FieldType)` (vm_value.rs line 156). -/
def VmTy.ofFieldType : EFieldType → VmTy
  | .optional x => .oneOf [.null, ofFieldType x]
  | .primitive p => .primitive p
  | .table n => .table n
  | .set x => .set (ofFieldType x)

/-- A specialized type of the compiled schema, executor view: field name ↦
(field type, annotations), plus the type name. -/
structure ESpecializedType where
  name : String
  fields : List (String × EFieldType × List FieldAnn)

/-- The compiled schema, executor view (`CompiledSchema` of
`schema/compile.rs`, not in the source tree): named types and exports. -/
structure ESchema where
  types : List (String × ESpecializedType)
  exports : List (String × EFieldType)

/-- `VmType::set_primary_key` (named `primary_key` in vm_value.rs line 223):
for `Set<Table n>`, the first `@primary` field of `n`. -/
def VmTy.set_primary_key (t : VmTy) (schema : ESchema) :
    Option (String × EFieldType) :=
  match t with
  | .set (.table n) =>
    match schema.types.lookup n with
    | some ty =>
      ty.fields.findSome? fun f =>
        if annsPrimary f.2.2 then some (f.1, f.2.1) else none
    | none => none
  | _ => none

/-- Set-subspace tag byte for the fast-scan (primary key index) keys. -/
def fastScanTag : Nat := 1

/-- Set-subspace tag byte for the member data keys. -/
def dataTag : Nat := 2

/-- PathWalker (`data/pathwalker.rs`, not in the source tree). Modelled from
the spec §4.2: a walker is a storage-plan node plus the accumulated prefix,
which is the concatenation of the storage keys of all non-flattened
ancestors. -/
structure Walker where
  parentPfx : Bytes
  node : StorageNode

/-- The KV key of the walker's node: ancestors' non-flattened keys then its
own storage key (spec §4.2). -/
def Walker.generate_key (w : Walker) : Bytes := w.parentPfx ++ w.node.key

/-- Walk into a named field: its node is the child of that name; the child's
prefix grows by this node's key unless this node is flattened (spec §4.2). -/
def Walker.enter_field (w : Walker) (name : String) : Option Walker :=
  (w.node.children.lookup name).map fun c =>
    ⟨if w.node.flattened then w.parentPfx else w.parentPfx ++ w.node.key, c⟩

/-- The fast-scan (primary key index) subspace prefix of a set node. -/
def Walker.set_fast_scan_prefix (w : Walker) : Option Bytes :=
  w.node.setChild.map fun _ => w.generate_key ++ [fastScanTag]

/-- The data subspace prefix of a set node. -/
def Walker.set_data_prefix (w : Walker) : Option Bytes :=
  w.node.setChild.map fun _ => w.generate_key ++ [dataTag]

/-- Walk into the set member addressed by an already-serialized primary key:
data subspace, the raw key, and a 0x00 terminator (spec §4.2). -/
def Walker.enter_set_raw (w : Walker) (raw : Bytes) : Option Walker :=
  w.node.setChild.map fun elem =>
    ⟨w.generate_key ++ [dataTag] ++ raw ++ [0], elem⟩

/-- Walk into the set member with the given primary key value. -/
def Walker.enter_set (w : Walker) (pk : PrimitiveValue) : Option Walker :=
  w.enter_set_raw pk.serialize_for_key_component

/-- The root walker of an export of the storage plan. -/
def Walker.from_export (plan : StoragePlan) (name : String) : Option Walker :=
  (plan.nodes.lookup name).map fun n => ⟨[], n⟩

end Exec

namespace Exec

/-- The KV store (`data/kv.rs`, not in the source tree). Modelled from the
spec: a byte-ordered map with point get/put/delete, range delete and range
scan; represented as an association list with at most one live entry per
key. -/
abbrev Kv := List (Bytes × List Nat)

/-- Remove a key's entries. -/
def kvErase (k : Bytes) (kv : Kv) : Kv := kv.filter fun e => !(e.1 == k)

/-- Point lookup. -/
def kvLookup (kv : Kv) (k : Bytes) : Option (List Nat) := kv.lookup k

/-- Membership of a key in the half-open byte-lexicographic range `[s, e)`. -/
def inRange (s e k : Bytes) : Bool := byteLe s k && byteLt k e

/-- Range delete over `[s, e)`. -/
def kvEraseRange (s e : Bytes) (kv : Kv) : Kv :=
  kv.filter fun ent => !(inRange s e ent.1)

/-- Insertion into a byte-lexicographically sorted key list. -/
def insertSorted (k : Bytes) : List Bytes → List Bytes
  | [] => [k]
  | x :: rest => if byteLe k x then k :: x :: rest else x :: insertSorted k rest

/-- Range scan over `[s, e)`: the live keys of the range in ascending byte
order. -/
def kvScan (kv : Kv) (s e : Bytes) : List Bytes :=
  (((kv.map Prod.fst).filter (inRange s e)).dedup).foldr insertSorted []

/-- One logged KV-layer operation; the log lets theorems speak about which
store accesses an executor step performs. -/
inductive KvOp where
  | get (k : Bytes)
  | put (k : Bytes) (v : List Nat)
  | del (k : Bytes)
  | delRange (s e : Bytes)
  | scan (s e : Bytes)
deriving DecidableEq, Repr

/-- Executor errors (`ExecError` in exec.rs), plus `panicked` for Rust
panics, `decodeFailed` for an `rmp_serde` decode error, and `outOfFuel` for
exhaustion of the embedding's step fuel. -/
inductive ExecErr where
  | notImplemented (s : String)
  | freshTableOrSetNotSupported
  | exportTypeNotSupported
  | maxRecursionDepthExceeded (d : Nat)
  | bothSelectCandidatesFired
  | conflictAfterRetries
  | scriptThrownError (s : String)
  | scriptThrownNull
  | panicked (msg : String)
  | decodeFailed
  | outOfFuel
deriving DecidableEq, Repr

/-- Executor state: the KV snapshot of the current transaction, the access
log, the largest recursion depth at which a subgraph was entered, and the
oracle stream deciding which ready future the `select_all` of the scheduler
completes first (modelling the nondeterministic completion order). -/
structure ExecSt where
  kv : Kv
  log : List KvOp
  maxEntry : Nat
  picks : List Nat

/-- The executor monad: state plus executor errors. -/
abbrev ExecM := EStateM ExecErr ExecSt

/-- Logged point get. -/
def kvGet (k : Bytes) : ExecM (Option (List Nat)) := do
  let st ← get
  set { st with log := st.log ++ [KvOp.get k] }
  pure (kvLookup st.kv k)

/-- Logged point put (replacing any live entry). -/
def kvPut (k : Bytes) (v : List Nat) : ExecM Unit :=
  modify fun st =>
    { st with kv := (k, v) :: kvErase k st.kv, log := st.log ++ [KvOp.put k v] }

/-- Logged point delete. -/
def kvDel (k : Bytes) : ExecM Unit :=
  modify fun st =>
    { st with kv := kvErase k st.kv, log := st.log ++ [KvOp.del k] }

/-- Logged range delete. -/
def kvDelRange (s e : Bytes) : ExecM Unit :=
  modify fun st =>
    { st with kv := kvEraseRange s e st.kv, log := st.log ++ [KvOp.delRange s e] }

/-- Logged range scan returning the keys. -/
def kvScanKeys (s e : Bytes) : ExecM (List Bytes) := do
  let st ← get
  set { st with log := st.log ++ [KvOp.scan s e] }
  pure (kvScan st.kv s e)

/-- Consume the next scheduler-choice oracle value (0 if exhausted). -/
def nextPick : ExecM Nat := do
  let st ← get
  match st.picks with
  | [] => pure 0
  | p :: rest => do
    set { st with picks := rest }
    pure p

/-- Record that a subgraph was entered at the given recursion depth. -/
def noteEntry (d : Nat) : ExecM Unit :=
  modify fun st => { st with maxEntry := max st.maxEntry d }

end Exec

namespace Exec

/-- Runtime values (`VmValue` in exec.rs's version of vm_value.rs, with the
table/set wrappers flattened into the constructors: `tableRes`/`tableFresh`
are `VmValue::Table` with `Resident`/`Fresh` kind, likewise the sets, and
`null` carries its type as the executor's typed nulls do). -/
inductive Value where
  | primitive (p : PrimitiveValue)
  | tableRes (ty : String) (w : Walker)
  | tableFresh (ty : String) (fields : List (String × Value))
  | setRes (member_ty : VmTy) (w : Walker)
  | setFresh (member_ty : VmTy) (members : List (Bytes × Value))
  | bool (b : Bool)
  | map (elements : List (String × Value))
  | list (member_ty : VmTy) (node : List Value)
  | null (ty : VmTy)

mutual

/-- Structural equality of runtime types (derived `PartialEq` on `VmType`). -/
def VmTy.beq : VmTy → VmTy → Bool
  | .primitive p, .primitive q => p == q
  | .table n, .table m => n == m
  | .set a, .set b => VmTy.beq a b
  | .null, .null => true
  | .bool, .bool => true
  | .list a, .list b => VmTy.beq a b
  | .map a, .map b => VmTy.beqFields a b
  | .oneOf a, .oneOf b => VmTy.beqList a b
  | .unknown, .unknown => true
  | .schema, .schema => true
  | _, _ => false

/-- Equality of the field maps of map types. -/
def VmTy.beqFields : List (String × VmTy) → List (String × VmTy) → Bool
  | [], [] => true
  | (k, v) :: r, (k', v') :: r' =>
    k == k' && VmTy.beq v v' && VmTy.beqFields r r'
  | _, _ => false

/-- Equality of type lists. -/
def VmTy.beqList : List VmTy → List VmTy → Bool
  | [], [] => true
  | a :: r, b :: r' => VmTy.beq a b && VmTy.beqList r r'
  | _, _ => false

end

mutual

/-- Structural equality of storage-plan nodes (derived `PartialEq`). -/
def StorageNode.beq : StorageNode → StorageNode → Bool
  | .mk k f s p sc c, .mk k' f' s' p' sc' c' =>
    k == k' && f == f' && s == s' && p == p' &&
      StorageNode.beqOpt sc sc' && StorageNode.beqChildren c c'

/-- Equality of optional set-member nodes. -/
def StorageNode.beqOpt : Option StorageNode → Option StorageNode → Bool
  | none, none => true
  | some a, some b => StorageNode.beq a b
  | _, _ => false

/-- Equality of child maps. -/
def StorageNode.beqChildren :
    List (String × StorageNode) → List (String × StorageNode) → Bool
  | [], [] => true
  | (k, v) :: r, (k', v') :: r' =>
    k == k' && StorageNode.beq v v' && StorageNode.beqChildren r r'
  | _, _ => false

end

/-- Structural equality of walkers (`PartialEq` on `PathWalker`, modelled
structurally on the spec-level walker). -/
def Walker.beq (a b : Walker) : Bool :=
  a.parentPfx == b.parentPfx && StorageNode.beq a.node b.node

mutual

/-- Structural equality of runtime values (derived `PartialEq` on
`VmValue`, used by the `Eq`/`Ne` ops). -/
def Value.beq : Value → Value → Bool
  | .primitive p, .primitive q => p == q
  | .tableRes t w, .tableRes t' w' => t == t' && Walker.beq w w'
  | .tableFresh t f, .tableFresh t' f' => t == t' && Value.beqFields f f'
  | .setRes mt w, .setRes mt' w' => VmTy.beq mt mt' && Walker.beq w w'
  | .setFresh mt m, .setFresh mt' m' => VmTy.beq mt mt' && Value.beqMembers m m'
  | .bool b, .bool b' => b == b'
  | .map e, .map e' => Value.beqFields e e'
  | .list mt n, .list mt' n' => VmTy.beq mt mt' && Value.beqList n n'
  | .null t, .null t' => VmTy.beq t t'
  | _, _ => false

/-- Equality of string-keyed value maps. -/
def Value.beqFields : List (String × Value) → List (String × Value) → Bool
  | [], [] => true
  | (k, v) :: r, (k', v') :: r' =>
    k == k' && Value.beq v v' && Value.beqFields r r'
  | _, _ => false

/-- Equality of byte-keyed member maps. -/
def Value.beqMembers : List (Bytes × Value) → List (Bytes × Value) → Bool
  | [], [] => true
  | (k, v) :: r, (k', v') :: r' =>
    k == k' && Value.beq v v' && Value.beqMembers r r'
  | _, _ => false

/-- Equality of value lists. -/
def Value.beqList : List Value → List Value → Bool
  | [], [] => true
  | a :: r, b :: r' => Value.beq a b && Value.beqList r r'
  | _, _ => false

end

/-- `VmValue::is_null`. -/
def Value.is_null : Value → Bool
  | .null _ => true
  | _ => false

mutual

/-- `VmType::from(&VmValue)` (vm_value.rs line 133, extended to the typed
nulls and lists of exec.rs's value enum: a typed null reports `Null`, a
list reports `List` of its member type). -/
def VmTy.ofValue : Value → VmTy
  | .primitive p => .primitive p.get_type
  | .tableRes ty _ => .table ty
  | .tableFresh ty _ => .table ty
  | .setRes mt _ => .set mt
  | .setFresh mt _ => .set mt
  | .bool _ => .bool
  | .map e => .map (VmTy.ofValueFields e)
  | .list mt _ => .list mt
  | .null _ => .null

/-- Pointwise `VmType::from` over the elements of a map value. -/
def VmTy.ofValueFields : List (String × Value) → List (String × VmTy)
  | [] => []
  | (k, v) :: r => (k, VmTy.ofValue v) :: VmTy.ofValueFields r

end

end Exec

namespace Exec

/-- Graph node operations: exactly the arms of run_node's match (exec.rs
lines 334-737). Constant parameters are indices into the idents, consts,
types or graphs pools. -/
inductive TwGraphNode where
  | loadParam (param_index : Nat)
  | loadConst (const_index : Nat)
  | buildTable (table_ty : Nat)
  | buildSet
  | createMap
  | getField (key_index : Nat)
  | getSetElement
  | filterSet (subgraph_index : Nat)
  | insertIntoMap (key_index : Nat)
  | insertIntoTable (key_index : Nat)
  | insertIntoSet
  | deleteFromMap (key_index : Nat)
  | deleteFromSet
  | eq
  | ne
  | and
  | or
  | not
  | isPresent
  | isNull
  | nop
  | call (subgraph_index : Nat)
  | add
  | sub
  | createList (member_ty : Nat)
  | prependToList
  | popFromList
  | listHead
  | select
  | reduce (subgraph_index : Nat) (has_range : Bool)
  | throw
deriving DecidableEq, Repr

/-- `TwGraphNode::is_select` (bytecode.rs of the executor's era, not in the
source tree): only `Select` executes as soon as any in-edge fires. -/
def TwGraphNode.is_select : TwGraphNode → Bool
  | .select => true
  | _ => false

/-- `TwGraphNode::is_optional_chained` (bytecode.rs of the executor's era,
not in the source tree). Modelled from the spec: a static table keyed by
opcode; the field/element reads chain, while `Reduce` and the mutating
effect nodes opt out and must see nulls (exec.rs handles their nulls
explicitly). Claims about the guard quantify over nodes with the flag set,
so only the opted-out ops below are load-bearing. -/
def TwGraphNode.is_optional_chained : TwGraphNode → Bool
  | .getField _ => true
  | .getSetElement => true
  | _ => false

/-- A graph (`TwGraph` of the executor's era): topologically sorted nodes,
each `(op, in_edges, precondition)`, and the output node index. The fields
the embedded executor does not consult (effects, param/output types, name)
are omitted. -/
structure TwGraph where
  nodes : List (TwGraphNode × List Nat × Option Nat)
  output : Option Nat

/-- What a fired source node does to a target (`FireRuleKind`). -/
inductive FireRuleKind where
  | paramDep (p : Nat)
  | precondition
deriving DecidableEq, Repr

/-- One fire rule: when the indexing source node completes, feed the target
(`FireRuleItem`). -/
structure FireRuleItem where
  target_node : Nat
  kind : FireRuleKind
deriving DecidableEq, Repr

/-- Append an element to the i-th bucket of a list of lists. -/
def listAppendAt (l : List (List α)) (i : Nat) (x : α) : List (List α) :=
  l.set i ((l.getD i []) ++ [x])

/-- `generate_fire_rules` (exec.rs line 890): invert the in-edges and
precondition edges into per-source firing rules. -/
def generate_fire_rules (g : TwGraph) : List (List FireRuleItem) :=
  let m := g.nodes.map fun _ => ([] : List FireRuleItem)
  (g.nodes.enum).foldl
    (fun m e =>
      let target := e.1
      let in_edges := e.2.2.1
      let pre := e.2.2.2
      let m := (in_edges.enum).foldl
        (fun m pe => listAppendAt m pe.2 ⟨target, .paramDep pe.1⟩) m
      match pre with
      | some src => listAppendAt m src ⟨target, .precondition⟩
      | none => m)
    m

/-- The immutable context of an execution (`TwVm` plus the per-graph
type-information and fire-rule tables the `Executor` carries): the script's
pools, the schema, and the two floating-point arithmetic oracles (bit-level
IEEE addition and subtraction are opaque to the claims). -/
structure Env where
  graphs : List TwGraph
  consts : List Value
  types : List VmTy
  idents : List String
  schema : ESchema
  typeInfo : List (List (Option VmTy))
  fireRules : List (List (List FireRuleItem))
  f64add : Nat → Nat → Nat
  f64sub : Nat → Nat → Nat

/-- `MAX_RECURSION_DEPTH` (exec.rs line 90). -/
def MAX_RECURSION_DEPTH : Nat := 128

/-- Increment the last byte of a key (`*key.last_mut().unwrap() += 1`);
`none` models the panic on an empty key. -/
def incLast : Bytes → Option Bytes
  | [] => none
  | [x] => some [x + 1]
  | x :: y :: rest => (incLast (y :: rest)).map (x :: ·)

/-- `strip_prefix` on byte strings. -/
def dropPfx : Bytes → Bytes → Option Bytes
  | [], k => some k
  | _ :: _, [] => none
  | p :: ps, x :: xs => if p = x then dropPfx ps xs else none

/-- Signed 64-bit wrap-around (`wrapping_add`/`wrapping_sub` land here). -/
def wrap64 (i : Int) : Int := (i + 2 ^ 63) % 2 ^ 64 - 2 ^ 63

/-- `read_table_element` (exec.rs line 739): a fresh table reads from its
field map; a resident table enters the field and, for a primitive field,
point-reads and decodes the stored value, a missing entry giving a typed
null. The source's field match has no `Optional` arm; an optional field is
modelled as the panic a non-exhaustive match would be. -/
def read_table_element (env : Env) (v : Value) (key : String) : ExecM Value :=
  match v with
  | .tableFresh _ fields =>
    match fields.lookup key with
    | some x => pure x
    | none => throw (.panicked "read_table_element: key not found in table")
  | .tableRes ty w =>
    match env.schema.types.lookup ty with
    | none => throw (.panicked "unwrap on missing schema type")
    | some specialized =>
      match specialized.fields.lookup key with
      | none => throw (.panicked "unwrap on missing field")
      | some (field, _) =>
        match w.enter_field key with
        | none => throw (.panicked "inconsistency: field not found in table")
        | some w' =>
          match field with
          | .primitive p => do
            let raw ← kvGet w'.generate_key
            match raw with
            | none => pure (.null (.primitive p))
            | some bytes =>
              match decodePrim bytes with
              | some pv => pure (.primitive pv)
              | none => throw .decodeFailed
          | .set member => pure (.setRes (VmTy.ofFieldType member) w')
          | .table x => pure (.tableRes x w')
          | .optional _ => throw (.panicked "read_table_element: optional field")
  | _ => throw (.panicked "read_table_element on non-table")

/-- `delete_set` (exec.rs line 851): range-delete the fast-scan and data
subspaces of a set. -/
def delete_set (walker : Walker) : ExecM Unit :=
  match walker.set_fast_scan_prefix, walker.set_data_prefix with
  | some fs, some ds =>
    match incLast fs, incLast ds with
    | some fse, some dse => do
      kvDelRange fs fse
      kvDelRange ds dse
    | _, _ => throw (.panicked "last_mut on empty key")
  | _, _ => throw (.panicked "unwrap on set prefix")

/-- `delete_entry_from_set` (exec.rs line 867): point-delete the fast-scan
key and range-delete `[data ++ pk ++ 0x00, data ++ pk ++ 0x01)`. -/
def delete_entry_from_set (walker : Walker) (pk : PrimitiveValue) :
    ExecM Unit := do
  let raw := pk.serialize_for_key_component
  match walker.set_fast_scan_prefix, walker.set_data_prefix with
  | some fs, some ds => do
    kvDel (fs ++ raw)
    kvDelRange (ds ++ raw ++ [0]) (ds ++ raw ++ [1])
  | _, _ => throw (.panicked "unwrap on set prefix")

mutual

/-- `walk_and_insert` (exec.rs line 786): write a value under a walker. A
null deletes the walker's key; a primitive stores its encoding; sets and
tables write a presence marker then their members/fields; resident
sets/tables cannot be copied; bool/map/list values panic. Fuel-bounded to
embed the recursion. -/
def walk_and_insert : Nat → Walker → Value → ExecM Unit
  | 0, _, _ => throw .outOfFuel
  | fuel + 1, walker, value =>
    match value with
    | .null _ => kvDel walker.generate_key
    | .primitive x => kvPut walker.generate_key (encodePrim x)
    | .setRes _ _ => do
      kvPut walker.generate_key []
      throw (.notImplemented "set copy is not implemented")
    | .setFresh _ members => do
      kvPut walker.generate_key []
      delete_set walker
      walkInsertMembers fuel walker members
    | .tableRes _ _ => do
      kvPut walker.generate_key []
      throw (.notImplemented "table copy is not implemented")
    | .tableFresh _ fields => do
      kvPut walker.generate_key []
      walkInsertFields fuel walker fields
    | .bool _ => throw (.panicked "inconsistency: walk_and_insert encountered non-storable type")
    | .map _ => throw (.panicked "inconsistency: walk_and_insert encountered non-storable type")
    | .list _ _ => throw (.panicked "inconsistency: walk_and_insert encountered non-storable type")
termination_by structural fuel _ _ => fuel

/-- The per-member loop of walk_and_insert's fresh-set arm. -/
def walkInsertMembers : Nat → Walker → List (Bytes × Value) → ExecM Unit
  | 0, _, _ => throw .outOfFuel
  | _ + 1, _, [] => pure ()
  | fuel + 1, walker, (pkv, member) :: rest =>
    match walker.set_fast_scan_prefix with
    | none => throw (.panicked "unwrap on set_fast_scan_prefix")
    | some fsp => do
      kvPut (fsp ++ pkv) []
      match walker.enter_set_raw pkv with
      | none => throw (.panicked "unwrap on enter_set_raw")
      | some w' => do
        walk_and_insert fuel w' member
        walkInsertMembers fuel walker rest
termination_by structural fuel _ _ => fuel

/-- The per-field loop of walk_and_insert's fresh-table arm. -/
def walkInsertFields : Nat → Walker → List (String × Value) → ExecM Unit
  | 0, _, _ => throw .outOfFuel
  | _ + 1, _, [] => pure ()
  | fuel + 1, walker, (k, v) :: rest =>
    match walker.enter_field k with
    | none => throw (.panicked "unwrap on enter_field")
    | some w' => do
      walk_and_insert fuel w' v
      walkInsertFields fuel walker rest
termination_by structural fuel _ _ => fuel

end

end Exec

namespace Exec

/-- Insert a member into a fresh set's ordered member map (`BTreeMap
::insert`): replace an equal key, otherwise keep ascending byte order. -/
def insertMember (k : Bytes) (v : Value) :
    List (Bytes × Value) → List (Bytes × Value)
  | [] => [(k, v)]
  | (k', v') :: rest =>
    if k == k' then (k, v) :: rest
    else if byteLt k k' then (k, v) :: (k', v') :: rest
    else (k', v') :: insertMember k v rest

/-- The member loop of BuildSet (exec.rs line 345): serialize each fresh
member's primary key; resident members are unimplemented, non-tables and
missing or non-primitive primary keys panic. -/
def buildSetFold (primary_key : String) :
    List Value → List (Bytes × Value) → Except ExecErr (List (Bytes × Value))
  | [], acc => .ok acc
  | n :: rest, acc =>
    match n with
    | .tableFresh _ fields =>
      match fields.lookup primary_key with
      | some (.primitive pv) =>
        buildSetFold primary_key rest
          (insertMember pv.serialize_for_key_component n acc)
      | some _ => .error (.panicked "unwrap_primitive")
      | none => .error (.panicked "unwrap on missing primary key field")
    | .tableRes _ _ => .error (.notImplemented "table copy is not implemented")
    | _ => .error (.panicked "unwrap_table")

/-- Remove a key from a string-keyed map value. -/
def listEraseKey (k : String) (l : List (String × Value)) :
    List (String × Value) :=
  l.filter fun e => !(e.1 == k)

/-- A pending node completion of the scheduler: either a spawned `run_node`
task or a select node's immediately-available result. -/
inductive Fut where
  | runTask (idx : Nat) (node : TwGraphNode) (params : List Value)
  | immediate (idx : Nat) (v : Value)

/-- The first dependency-propagation loop of the scheduler (exec.rs line
224): store the fired node's value into each target's parameter slot, or
record its precondition verdict (`Bool b` ↦ b, a null ↦ false, no value ↦
true, anything else panics). Out-of-range indices are the source's panics. -/
def applyFireRules (result : Option Value) :
    List FireRuleItem → List (List (Option Value)) → List Bool →
    Except ExecErr (List (List (Option Value)) × List Bool)
  | [], deps, precond => .ok (deps, precond)
  | item :: rest, deps, precond =>
    match item.kind with
    | .paramDep p =>
      match result with
      | none => .error (.panicked "run_graph: node is a parameter dependency of some other nodes but does not produce a value")
      | some v =>
        match deps.get? item.target_node with
        | none => .error (.panicked "index out of bounds")
        | some slots =>
          if p < slots.length then
            applyFireRules result rest
              (deps.set item.target_node (slots.set p (some v))) precond
          else .error (.panicked "index out of bounds")
    | .precondition =>
      match
        (match result with
          | some (.bool b) => Except.ok b
          | some (.null _) => Except.ok false
          | none => Except.ok true
          | some _ =>
            Except.error (ExecErr.panicked "inconsistency detected: invalid precondition")) with
      | .error e => .error e
      | .ok b =>
        if item.target_node < precond.length then
          applyFireRules result rest deps (precond.set item.target_node b)
        else .error (.panicked "index out of bounds")

/-- The second loop of the scheduler (exec.rs line 251): for each target of
the fired node whose precondition holds, fire a select as soon as one slot
is filled (emptying its slots; empty slots mean it already fired, giving
`BothSelectCandidatesFired`), and spawn an ordinary node when every slot is
filled (emptying them into its parameters). -/
def collectFires (g : TwGraph) :
    List FireRuleItem → List (List (Option Value)) → List Bool → List Fut →
    Except ExecErr (List (List (Option Value)) × List Fut)
  | [], deps, _, acc => .ok (deps, acc)
  | item :: rest, deps, precond, acc =>
    let target := item.target_node
    match g.nodes.get? target with
    | none => .error (.panicked "index out of bounds")
    | some ninfo =>
      match precond.get? target with
      | none => .error (.panicked "index out of bounds")
      | some psat =>
        if psat then
          match deps.get? target with
          | none => .error (.panicked "index out of bounds")
          | some slots =>
            if ninfo.1.is_select then
              if slots.isEmpty then .error .bothSelectCandidatesFired
              else
                match slots.findSome? id with
                | some x =>
                  collectFires g rest (deps.set target []) precond
                    (acc ++ [.immediate target x])
                | none => collectFires g rest deps precond acc
            else
              if slots.all Option.isSome then
                collectFires g rest (deps.set target []) precond
                  (acc ++ [.runTask target ninfo.1 (slots.filterMap id)])
              else collectFires g rest deps precond acc
        else collectFires g rest deps precond acc

end Exec

namespace Exec

/-- The scan-range computation of Reduce over a set (exec.rs line 675): with
a range, a non-null bound replaces the subspace-wide bound by the prefix
extended with the bound's serialized primary key. -/
def reduceRange (has_range : Bool) (rest : List Value)
    ( range_prefix range_end0 : Bytes) : Except ExecErr (Bytes × Bytes) :=
  if has_range then
    match rest with
    | m3 :: m4 :: _ => do
      let rs ←
        if m3.is_null then Except.ok range_prefix
        else
          match m3 with
          | .primitive pp =>
            Except.ok ( range_prefix ++ pp.serialize_for_key_component)
          | _ => Except.error (ExecErr.panicked "unwrap_primitive")
      let re ←
        if m4.is_null then Except.ok range_end0
        else
          match m4 with
          | .primitive pp =>
            Except.ok ( range_prefix ++ pp.serialize_for_key_component)
          | _ => Except.error (ExecErr.panicked "unwrap_primitive")
      Except.ok (rs, re)
    | _ => .error (.panicked "index out of bounds")
  else .ok ( range_prefix, range_end0)

/-- The initial per-node dependency slots: one empty slot per in-edge. -/
def initDeps (g : TwGraph) : List (List (Option Value)) :=
  g.nodes.map fun e => e.2.1.map fun _ => (none : Option Value)

/-- The initial precondition verdicts: satisfied iff a node has none. -/
def initPrecond (g : TwGraph) : List Bool :=
  g.nodes.map fun e => e.2.2.isNone

/-- The initial batch of futures: the nodes with no in-edges and no
precondition, spawned with no parameters. -/
def seedFutures (g : TwGraph) : List Fut :=
  g.nodes.enum.filterMap fun e =>
    if e.2.2.1.isEmpty && e.2.2.2.isNone then
      some (Fut.runTask e.1 e.2.1 [])
    else none

mutual

/-- `recursively_run_graph` (exec.rs line 157): reject entry at depth ≥
MAX_RECURSION_DEPTH, then run the graph's dataflow at depth + 1, seeding
the nodes with no in-edges and no precondition and returning the output
node's value. `noteEntry` instruments the state with the entered depth;
missing pool entries stand for the source's indexing panics via empty
defaults. Fuel-bounded to embed the recursion. -/
def recursively_run_graph (env : Env) :
    Nat → Nat → List Value → Nat → ExecM (Option Value)
  | 0, _, _, _ => throw .outOfFuel
  | fuel + 1, graph_index, graph_params, recursion_depth =>
    if recursion_depth ≥ MAX_RECURSION_DEPTH then
      throw (.maxRecursionDepthExceeded recursion_depth)
    else do
      noteEntry recursion_depth
      let g := env.graphs.getD graph_index ⟨[], none⟩
      schedLoop env fuel g (env.fireRules.getD graph_index [])
        (env.typeInfo.getD graph_index []) graph_params (recursion_depth + 1)
        (seedFutures g) (initDeps g) (initPrecond g) none
termination_by structural fuel _ _ _ => fuel

/-- The scheduler loop of recursively_run_graph (exec.rs line 211): while
futures remain, let the completion oracle choose which finishes first, run
it, capture the output node's value, and propagate its result through the
fire rules. -/
def schedLoop (env : Env) :
    Nat → TwGraph → List (List FireRuleItem) → List (Option VmTy) →
    List Value → Nat → List Fut → List (List (Option Value)) → List Bool →
    Option Value → ExecM (Option Value)
  | 0, _, _, _, _, _, _, _, _, _ => throw .outOfFuel
  | fuel + 1, g, fr, ti, gp, depth, futures, deps, precond, ret =>
    match futures with
    | [] => pure ret
    | _ :: _ => do
      let pi ← nextPick
      let idx := pi % futures.length
      let fut := futures.getD idx (.immediate 0 (.bool false))
      let remaining := futures.eraseIdx idx
      let pr ← (match fut with
        | .runTask j node params => do
          let r ← run_node env fuel node params gp (ti.getD j none) depth
          pure (Prod.mk j r)
        | .immediate j v => pure (Prod.mk j (some v)))
      let node_index := pr.1
      let result := pr.2
      let ret := if g.output = some node_index then result else ret
      let to_fire := fr.getD node_index []
      match applyFireRules result to_fire deps precond with
      | .error e => throw e
      | .ok dp =>
        match collectFires g to_fire dp.1 dp.2 [] with
        | .error e => throw e
        | .ok dn =>
          schedLoop env fuel g fr ti gp depth (remaining ++ dn.2) dn.1 dp.2 ret
termination_by structural fuel _ _ _ _ _ _ _ _ _ => fuel

/-- `run_node` (exec.rs line 309): the optional-chaining guard, then the
per-op dispatch. -/
def run_node (env : Env) :
    Nat → TwGraphNode → List Value → List Value → Option VmTy → Nat →
    ExecM (Option Value)
  | 0, _, _, _, _, _ => throw .outOfFuel
  | fuel + 1, n, params, graph_params, type_info, recursion_depth =>
    if n.is_optional_chained && params.any Value.is_null then
      pure (type_info.map fun x => Value.null x)
    else
      match n with
      | .buildSet =>
        match params with
        | p0 :: _ =>
          match p0 with
          | .list member_ty node =>
            match (VmTy.set member_ty).set_primary_key env.schema with
            | none => throw (.panicked "inconsistency: primary key not found")
            | some pk =>
              match buildSetFold pk.1 node [] with
              | .error e => throw e
              | .ok members => pure (some (.setFresh member_ty members))
          | _ => throw (.panicked "unreachable")
        | _ => throw (.panicked "index out of bounds")
      | .buildTable table_ty =>
        match params with
        | p0 :: _ =>
          match p0 with
          | .map elements =>
            match env.idents.get? table_ty with
            | none => throw (.panicked "index out of bounds")
            | some ty =>
              match env.schema.types.lookup ty with
              | none => throw (.panicked "unwrap on missing schema type")
              | some specialized =>
                pure (some (.tableFresh ty (specialized.fields.map fun f =>
                  (f.1, (elements.lookup f.1).getD
                    (Value.null (VmTy.ofFieldType f.2.1))))))
          | _ => throw (.panicked "unreachable")
        | _ => throw (.panicked "index out of bounds")
      | .createMap => pure (some (.map []))
      | .deleteFromMap key_index =>
        match params with
        | p0 :: _ =>
          match p0 with
          | .map elements =>
            match env.idents.get? key_index with
            | none => throw (.panicked "unwrap on missing ident")
            | some key => pure (some (.map (listEraseKey key elements)))
          | .null _ => pure (some p0)
          | _ => throw (.panicked "unreachable")
        | _ => throw (.panicked "index out of bounds")
      | .getField key_index =>
        match env.idents.get? key_index with
        | none => throw (.panicked "unwrap on missing ident")
        | some key =>
          match params with
          | p0 :: _ =>
            match p0 with
            | .map elements =>
              match elements.lookup key with
              | some v => pure (some v)
              | none => throw (.panicked "map field not found")
            | .tableRes _ _ => do
              let v ← read_table_element env p0 key
              pure (some v)
            | .tableFresh _ _ => do
              let v ← read_table_element env p0 key
              pure (some v)
            | _ => throw (.panicked "unreachable")
          | _ => throw (.panicked "index out of bounds")
      | .getSetElement =>
        match params with
        | p0 :: p1 :: _ =>
          match p0 with
          | .primitive pk =>
            match p1 with
            | .setRes mt w =>
              match mt with
              | .table name =>
                match w.enter_set pk with
                | some w' => pure (some (.tableRes name w'))
                | none => throw (.panicked "unwrap on enter_set")
              | _ => throw (.panicked "unreachable")
            | .setFresh mt _ =>
              match mt with
              | .table _ => throw .freshTableOrSetNotSupported
              | _ => throw (.panicked "unreachable")
            | _ => throw (.panicked "unreachable")
          | _ => throw (.panicked "unreachable")
        | _ => throw (.panicked "index out of bounds")
      | .insertIntoMap key_index =>
        match params with
        | value :: p1 :: _ =>
          match p1 with
          | .map elements =>
            match env.idents.get? key_index with
            | none => throw (.panicked "unwrap on missing ident")
            | some key =>
              pure (some (.map ((key, value) :: listEraseKey key elements)))
          | .null _ => pure (some p1)
          | _ => throw (.panicked "unreachable")
        | _ => throw (.panicked "index out of bounds")
      | .insertIntoSet =>
        match params with
        | value :: p1 :: _ =>
          match (VmTy.ofValue p1).set_primary_key env.schema with
          | none =>
            throw (.panicked "inconsistency: primary key not found for set member")
          | some pk => do
            let pkv ← read_table_element env value pk.1
            match p1 with
            | .setRes _ w =>
              match pkv with
              | .primitive pp =>
                match w.set_fast_scan_prefix with
                | none => throw (.panicked "unwrap on set_fast_scan_prefix")
                | some fsp => do
                  kvPut (fsp ++ pp.serialize_for_key_component) []
                  match w.enter_set_raw pp.serialize_for_key_component with
                  | none => throw (.panicked "unwrap on enter_set_raw")
                  | some w' => do
                    walk_and_insert fuel w' value
                    pure none
              | _ => throw (.panicked "unwrap_primitive")
            | .setFresh _ _ => throw .freshTableOrSetNotSupported
            | _ => throw (.panicked "unwrap_set")
        | _ => throw (.panicked "index out of bounds")
      | .insertIntoTable key_index =>
        match env.idents.get? key_index with
        | none => throw (.panicked "unwrap on missing ident")
        | some key =>
          match params with
          | value :: p1 :: _ =>
            match p1 with
            | .tableRes _ w =>
              match w.enter_field key with
              | none => throw (.panicked "unwrap on enter_field")
              | some w' => do
                walk_and_insert fuel w' value
                pure none
            | .tableFresh _ _ => throw .freshTableOrSetNotSupported
            | _ => throw (.panicked "unwrap_table")
          | _ => throw (.panicked "index out of bounds")
      | .loadConst const_index =>
        match env.consts.get? const_index with
        | some v => pure (some v)
        | none => throw (.panicked "index out of bounds")
      | .loadParam param_index =>
        match graph_params.get? param_index with
        | some v => pure (some v)
        | none => throw (.panicked "index out of bounds")
      | .deleteFromSet =>
        match params with
        | p0 :: p1 :: _ =>
          match p0 with
          | .primitive pk =>
            match p1 with
            | .setRes _ w => do
              delete_entry_from_set w pk
              pure none
            | .setFresh _ _ => throw .freshTableOrSetNotSupported
            | _ => throw (.panicked "unreachable")
          | _ => throw (.panicked "unreachable")
        | _ => throw (.panicked "index out of bounds")
      | .eq =>
        match params with
        | a :: b :: _ => pure (some (.bool (Value.beq a b)))
        | _ => throw (.panicked "index out of bounds")
      | .ne =>
        match params with
        | a :: b :: _ => pure (some (.bool (!Value.beq a b)))
        | _ => throw (.panicked "index out of bounds")
      | .and =>
        match params with
        | .bool a :: .bool b :: _ => pure (some (.bool (a && b)))
        | _ => throw (.panicked "unwrap_bool")
      | .or =>
        match params with
        | .bool a :: .bool b :: _ => pure (some (.bool (a || b)))
        | _ => throw (.panicked "unwrap_bool")
      | .not =>
        match params with
        | .bool a :: _ => pure (some (.bool (!a)))
        | _ => throw (.panicked "unwrap_bool")
      | .isPresent =>
        match params with
        | p0 :: _ =>
          match p0 with
          | .setFresh _ _ => pure (some (.bool true))
          | .tableFresh _ _ => pure (some (.bool true))
          | .setRes _ w => do
            let r ← kvGet w.generate_key
            pure (some (.bool r.isSome))
          | .tableRes _ w => do
            let r ← kvGet w.generate_key
            pure (some (.bool r.isSome))
          | _ => throw (.panicked "unreachable")
        | _ => throw (.panicked "index out of bounds")
      | .isNull =>
        match params with
        | p0 :: _ => pure (some (.bool p0.is_null))
        | _ => throw (.panicked "index out of bounds")
      | .nop =>
        match params with
        | p0 :: _ => pure (some p0)
        | _ => throw (.panicked "index out of bounds")
      | .call subgraph_index =>
        recursively_run_graph env fuel subgraph_index params recursion_depth
      | .add =>
        match params with
        | .primitive (.int64 l) :: .primitive (.int64 r) :: _ =>
          pure (some (.primitive (.int64 (wrap64 (l + r)))))
        | .primitive (.double l) :: .primitive (.double r) :: _ =>
          pure (some (.primitive (.double (env.f64add l r))))
        | .primitive (.string l) :: .primitive (.string r) :: _ =>
          pure (some (.primitive (.string (l ++ r))))
        | _ => throw (.panicked "unreachable")
      | .sub =>
        match params with
        | .primitive (.int64 l) :: .primitive (.int64 r) :: _ =>
          pure (some (.primitive (.int64 (wrap64 (l - r)))))
        | .primitive (.double l) :: .primitive (.double r) :: _ =>
          pure (some (.primitive (.double (env.f64sub l r))))
        | _ => throw (.panicked "unreachable")
      | .createList member_ty =>
        match env.types.get? member_ty with
        | none => throw (.panicked "unwrap on missing type")
        | some ty => pure (some (.list ty []))
      | .prependToList =>
        match params with
        | value :: p1 :: _ =>
          match p1 with
          | .list mt node => pure (some (.list mt (value :: node)))
          | _ => throw (.panicked "unreachable")
        | _ => throw (.panicked "index out of bounds")
      | .popFromList =>
        match params with
        | p0 :: _ =>
          match p0 with
          | .list mt node =>
            match node with
            | _ :: rest => pure (some (.list mt rest))
            | [] => pure (some (.null (.list mt)))
          | _ => throw (.panicked "unreachable")
        | _ => throw (.panicked "index out of bounds")
      | .listHead =>
        match params with
        | p0 :: _ =>
          match p0 with
          | .list mt node =>
            match node with
            | x :: _ => pure (some x)
            | [] => pure (some (.null mt))
          | _ => throw (.panicked "unreachable")
        | _ => throw (.panicked "index out of bounds")
      | .select => throw (.panicked "inconsistency: got select in run_node")
      | .filterSet _ => throw (.notImplemented "FilterSet")
      | .reduce subgraph_index has_range =>
        match params with
        | p0 :: p1 :: p2 :: rest =>
          if p2.is_null then pure (type_info.map fun x => Value.null x)
          else
            match p2 with
            | .list _ node => do
              let acc ← reduceListAux env fuel subgraph_index p0 p1 node
                recursion_depth
              pure (some acc)
            | .setRes mt w =>
              match mt with
              | .table x =>
                match env.schema.types.lookup x with
                | none => throw (.panicked "unwrap on missing schema type")
                | some specialized =>
                  match w.set_fast_scan_prefix with
                  | none => throw (.panicked "unwrap on set_fast_scan_prefix")
                  | some range_prefix =>
                    match incLast range_prefix with
                    | none => throw (.panicked "last_mut on empty key")
                    | some range_end0 =>
                      match reduceRange has_range rest range_prefix range_end0 with
                      | .error e => throw e
                      | .ok r => do
                        let keys ← kvScanKeys r.1 r.2
                        let acc ← reduceScanAux env fuel subgraph_index p0 p1
                          keys range_prefix w specialized.name recursion_depth
                        pure (some acc)
              | _ => throw (.panicked "unreachable")
            | .setFresh _ _ => throw .freshTableOrSetNotSupported
            | _ => throw (.panicked "unreachable")
        | _ => throw (.panicked "index out of bounds")
      | .throw =>
        match params with
        | p0 :: _ =>
          match p0 with
          | .null _ => throw .scriptThrownNull
          | .primitive (.string s) => throw (.scriptThrownError s)
          | .primitive _ => throw (.panicked "unwrap_string")
          | _ => throw (.panicked "unwrap_primitive")
        | _ => throw (.panicked "index out of bounds")
termination_by structural fuel _ _ _ _ _ => fuel

/-- The list leg of Reduce (exec.rs line 643): fold the subgraph over the
list, stopping at the first null output and keeping the previous
accumulator. -/
def reduceListAux (env : Env) :
    Nat → Nat → Value → Value → List Value → Nat → ExecM Value
  | 0, _, _, _, _, _ => throw .outOfFuel
  | _ + 1, _, _, acc, [], _ => pure acc
  | fuel + 1, k, p0, acc, n :: rest, depth => do
    let out ← recursively_run_graph env fuel k [p0, acc, n] depth
    match out with
    | none =>
      throw (.panicked "inconsistency: ReduceList did not get an output from subgraph")
    | some o =>
      if o.is_null then pure acc
      else reduceListAux env fuel k p0 o rest depth
termination_by structural fuel _ _ _ _ _ => fuel

/-- The set leg of Reduce (exec.rs line 700): fold the subgraph over the
scanned fast-scan keys, entering each member through the walker. -/
def reduceScanAux (env : Env) :
    Nat → Nat → Value → Value → List Bytes → Bytes → Walker → String →
    Nat → ExecM Value
  | 0, _, _, _, _, _, _, _, _ => throw .outOfFuel
  | _ + 1, _, _, acc, [], _, _, _, _ => pure acc
  | fuel + 1, k, p0, acc, key :: rest, range_prefix, w, tyName, depth =>
    match dropPfx range_prefix key with
    | none => throw (.panicked "unwrap on strip_prefix")
    | some kRaw =>
      match w.enter_set_raw kRaw with
      | none => throw (.panicked "unwrap on enter_set_raw")
      | some w' => do
        let out ← recursively_run_graph env fuel k
          [p0, acc, .tableRes tyName w'] depth
        match out with
        | none =>
          throw (.panicked "inconsistency: ReduceList did not get an output from subgraph")
        | some o =>
          if o.is_null then pure acc
          else reduceScanAux env fuel k p0 o rest range_prefix w tyName depth
termination_by structural fuel _ _ _ _ _ _ _ _ => fuel

end

end Exec

namespace Exec

/-- The observable outcome of one attempt of run_graph: the transaction
begin fails, running the graph fails, the commit succeeds with the graph
output, the commit conflicts, or the commit fails otherwise. -/
inductive AttemptOutcome where
  | beginFailed (e : ExecErr)
  | runFailed (e : ExecErr)
  | commitOk (out : Option Value)
  | conflict
  | commitFailed (e : ExecErr)

/-- The result of the retry loop: the final verdict, the sleeps performed
(in milliseconds), and how many attempts were made. -/
structure RunGraphResult where
  result : Except ExecErr (Option Value)
  sleeps : List Nat
  attempts : Nat

/-- `rand::thread_rng().gen_range(1..20)` applied to a raw random draw:
uniform over [1, 20). -/
def gen_range_1_20 (r : Nat) : Nat := 1 + r % 19

/-- The body of run_graph's `for i in 0..10` loop (exec.rs line 127),
with each attempt's fresh transaction abstracted into its outcome and the
random sleeps drawn from the `rng` stream when `sleep_installed`. -/
def run_graph_loop (attempt : Nat → AttemptOutcome) (rng : Nat → Nat)
    (sleep_installed : Bool) : Nat → Nat → List Nat → RunGraphResult
  | 0, i, sleeps => ⟨.error .conflictAfterRetries, sleeps, i⟩
  | remaining + 1, i, sleeps =>
    match attempt i with
    | .beginFailed e => ⟨.error e, sleeps, i + 1⟩
    | .runFailed e => ⟨.error e, sleeps, i + 1⟩
    | .commitOk out => ⟨.ok out, sleeps, i + 1⟩
    | .commitFailed e => ⟨.error e, sleeps, i + 1⟩
    | .conflict =>
      run_graph_loop attempt rng sleep_installed remaining (i + 1)
        (if sleep_installed then sleeps ++ [gen_range_1_20 (rng i)] else sleeps)

/-- `run_graph` (exec.rs line 120): up to 10 attempts starting with none
made and no sleeps. -/
def run_graph (attempt : Nat → AttemptOutcome) (rng : Nat → Nat)
    (sleep_installed : Bool) : RunGraphResult :=
  run_graph_loop attempt rng sleep_installed 10 0 []

end Exec

namespace Exec

/-- C7: for every node whose operation is optional-chaining-enabled, if any
input parameter value is a Null, run_node returns a Null of the node's
declared output type, with the state untouched (no KV access, no op
executed). -/
theorem optional_chain_guard (env : Env) (fuel : Nat) (n : TwGraphNode)
    (params gp : List Value) (ti : Option VmTy) (depth : Nat) (st : ExecSt)
    (hchain : n.is_optional_chained = true)
    (hnull : params.any Value.is_null = true) :
    (run_node env (fuel + 1) n params gp ti depth).run st =
      EStateM.Result.ok (ti.map fun x => Value.null x) st := by
  simp [run_node, hchain, hnull, EStateM.run, pure, EStateM.pure]

def envW : Env :=
  ⟨[], [], [], [], ⟨[], []⟩, [], [], fun _ _ => 0, fun _ _ => 0⟩

def stW : ExecSt := ⟨[], [], 0, []⟩

theorem optional_chain_guard_witness :
    (run_node envW 1 (.getField 0) [Value.null .bool] [] (some .bool) 0).run
        stW =
      EStateM.Result.ok (some (Value.null .bool)) stW :=
  optional_chain_guard envW 0 (.getField 0) [Value.null .bool] []
    (some .bool) 0 stW rfl rfl

/-- C9: IsPresent on a fresh set or fresh table returns Bool(true) with the
state untouched (no KV read); on a resident set or table it performs
exactly one KV get at the walker's generated key and returns whether a
value exists there. -/
theorem is_present_semantics (env : Env) (fuel : Nat) (mt : VmTy)
    (m : List (Bytes × Value)) (tn : String) (flds : List (String × Value))
    (w : Walker) (rest gp : List Value) (ti : Option VmTy) (depth : Nat)
    (st : ExecSt) :
    (run_node env (fuel + 1) .isPresent (.setFresh mt m :: rest) gp ti
        depth).run st =
      EStateM.Result.ok (some (.bool true)) st ∧
    (run_node env (fuel + 1) .isPresent (.tableFresh tn flds :: rest) gp ti
        depth).run st =
      EStateM.Result.ok (some (.bool true)) st ∧
    (run_node env (fuel + 1) .isPresent (.setRes mt w :: rest) gp ti
        depth).run st =
      EStateM.Result.ok (some (.bool (kvLookup st.kv w.generate_key).isSome))
        { st with log := st.log ++ [KvOp.get w.generate_key] } ∧
    (run_node env (fuel + 1) .isPresent (.tableRes tn w :: rest) gp ti
        depth).run st =
      EStateM.Result.ok (some (.bool (kvLookup st.kv w.generate_key).isSome))
        { st with log := st.log ++ [KvOp.get w.generate_key] } := by
  refine ⟨rfl, rfl, rfl, rfl⟩

end Exec

namespace Exec

theorem run_bind {α β : Type} (x : ExecM α) (f : α → ExecM β) (st : ExecSt) :
    (x >>= f).run st =
      match x.run st with
      | .ok a s => (f a).run s
      | .error e s => .error e s := by
  cases hx : x.run st with
  | ok a s =>
    have hx2 : x st = .ok a s := hx
    show EStateM.bind x f st = _
    unfold EStateM.bind
    rw [hx2]
    rfl
  | error e s =>
    have hx2 : x st = .error e s := hx
    show EStateM.bind x f st = _
    unfold EStateM.bind
    rw [hx2]

theorem kvGet_run (k : Bytes) (st : ExecSt) :
    (kvGet k).run st =
      EStateM.Result.ok (kvLookup st.kv k)
        { st with log := st.log ++ [KvOp.get k] } := rfl

theorem kvLookup_kvErase_self (kv : Kv) (k : Bytes) :
    kvLookup (kvErase k kv) k = none := by
  induction kv with
  | nil => rfl
  | cons e rest ih =>
    by_cases he : e.1 = k
    · simpa [kvErase, he] using ih
    · have hb : (e.1 == k) = false := by
        simpa using he
      simp [kvErase, List.filter, hb, kvLookup, List.lookup] at ih ⊢
      have hb2 : (k == e.1) = false := by
        simpa using fun h => he h.symm
      simpa [hb2] using ih

/-- C10: inserting a Null into a resident table's primitive field deletes
the field's KV key (no encoded null is stored), and once the key is absent
a GetField on that field reads back a typed Null of the field's type;
moreover the deletion leaves no live entry at that key. -/
theorem insert_null_deletes (env : Env) (fuel : Nat) (ki : Nat)
    (key tn : String) (w w' : Walker) (ty : VmTy) (p : PrimitiveType)
    (spec : ESpecializedType) (anns : List FieldAnn) (gp : List Value)
    (ti : Option VmTy) (depth : Nat) (st : ExecSt)
    (hident : env.idents.get? ki = some key)
    (hfield : w.enter_field key = some w')
    (htype : env.schema.types.lookup tn = some spec)
    (hfty : spec.fields.lookup key = some (.primitive p, anns)) :
    (run_node env (fuel + 2) (.insertIntoTable ki)
        [.null ty, .tableRes tn w] gp ti depth).run st =
      EStateM.Result.ok none
        { st with kv := kvErase w'.generate_key st.kv,
                  log := st.log ++ [KvOp.del w'.generate_key] } ∧
    (∀ st' : ExecSt, kvLookup st'.kv w'.generate_key = none →
      (run_node env (fuel + 1) (.getField ki)
          [.tableRes tn w] gp ti depth).run st' =
        EStateM.Result.ok (some (.null (.primitive p)))
          { st' with log := st'.log ++ [KvOp.get w'.generate_key] }) ∧
    kvLookup (kvErase w'.generate_key st.kv) w'.generate_key = none := by
  refine ⟨?_, ?_, kvLookup_kvErase_self st.kv w'.generate_key⟩
  · simp only [run_node, hident, hfield, walk_and_insert, kvDel]
    rfl
  · intro st' hnone
    simp only [run_node, TwGraphNode.is_optional_chained, Value.is_null,
      List.any_cons, List.any_nil, Bool.or_false, Bool.true_and,
      Bool.and_false, Bool.false_eq_true, if_false, read_table_element,
      hident, htype, hfty, hfield]
    rw [run_bind, run_bind, kvGet_run, hnone]
    rfl

end Exec

namespace Exec

def nodeC10f : StorageNode := .mk [2] false false false none []

def nodeC10 : StorageNode := .mk [1] false false false none [("f", nodeC10f)]

def wC10 : Walker := ⟨[], nodeC10⟩

def wC10f : Walker := ⟨[1], nodeC10f⟩

def envC10 : Env :=
  { graphs := [], consts := [], types := [], idents := ["f"],
    schema := ⟨[("T", ⟨"T", [("f", (.primitive .int64, []))]⟩)], []⟩,
    typeInfo := [], fireRules := [],
    f64add := fun _ _ => 0, f64sub := fun _ _ => 0 }

theorem insert_null_deletes_witness :
    (run_node envC10 2 (.insertIntoTable 0)
        [.null .null, .tableRes "T" wC10] [] none 0).run stW =
      EStateM.Result.ok none
        { stW with kv := kvErase wC10f.generate_key stW.kv,
                   log := stW.log ++ [KvOp.del wC10f.generate_key] } ∧
    (∀ st' : ExecSt, kvLookup st'.kv wC10f.generate_key = none →
      (run_node envC10 1 (.getField 0) [.tableRes "T" wC10] [] none 0).run
          st' =
        EStateM.Result.ok (some (.null (.primitive .int64)))
          { st' with log := st'.log ++ [KvOp.get wC10f.generate_key] }) ∧
    kvLookup (kvErase wC10f.generate_key stW.kv) wC10f.generate_key = none :=
  insert_null_deletes envC10 0 0 "f" "T" wC10 wC10f .null .int64
    ⟨"T", [("f", (.primitive .int64, []))]⟩ [] [] none 0 stW rfl rfl rfl rfl

end Exec

namespace Exec

/-- The state carried by an executor result (both on success and on error,
since EStateM errors keep the state). -/
def stOf {α : Type} : EStateM.Result ExecErr ExecSt α → ExecSt
  | .ok _ s => s
  | .error _ s => s

/-- The computation never pushes the entered-depth watermark above
`MAX_RECURSION_DEPTH - 1` (beyond where it already is). -/
def meBdd {α : Type} (x : ExecM α) : Prop :=
  ∀ st : ExecSt,
    (stOf (x.run st)).maxEntry ≤ max st.maxEntry (MAX_RECURSION_DEPTH - 1)

/-- The computation leaves the entered-depth watermark unchanged. -/
def mePres {α : Type} (x : ExecM α) : Prop :=
  ∀ st : ExecSt, (stOf (x.run st)).maxEntry = st.maxEntry

theorem mePres.meBdd {α : Type} {x : ExecM α} (h : mePres x) : meBdd x := by
  intro st
  rw [h st]
  exact le_max_left _ _

theorem mePres_pure {α : Type} (a : α) : mePres (pure a : ExecM α) :=
  fun _ => rfl

theorem meBdd_pure {α : Type} (a : α) : meBdd (pure a : ExecM α) :=
  (mePres_pure a).meBdd

theorem mePres_throw {α : Type} (e : ExecErr) :
    mePres (throw e : ExecM α) :=
  fun _ => rfl

theorem meBdd_throw {α : Type} (e : ExecErr) : meBdd (throw e : ExecM α) :=
  (mePres_throw e).meBdd

theorem mePres_bind {α β : Type} {x : ExecM α} {f : α → ExecM β}
    (hx : mePres x) (hf : ∀ a, mePres (f a)) : mePres (x >>= f) := by
  intro st
  rw [run_bind]
  cases hres : x.run st with
  | ok a s =>
    have h1 : s.maxEntry = st.maxEntry := by
      have := hx st
      rw [hres] at this
      exact this
    rw [show stOf (match EStateM.Result.ok a s with
        | .ok a s => (f a).run s
        | .error e s => EStateM.Result.error e s) = stOf ((f a).run s) from rfl]
    rw [hf a s, h1]
  | error e s =>
    have := hx st
    rw [hres] at this
    exact this

theorem meBdd_bind {α β : Type} {x : ExecM α} {f : α → ExecM β}
    (hx : meBdd x) (hf : ∀ a, meBdd (f a)) : meBdd (x >>= f) := by
  intro st
  rw [run_bind]
  cases hres : x.run st with
  | ok a s =>
    have h1 : s.maxEntry ≤ max st.maxEntry (MAX_RECURSION_DEPTH - 1) := by
      have := hx st
      rw [hres] at this
      exact this
    rw [show stOf (match EStateM.Result.ok a s with
        | .ok a s => (f a).run s
        | .error e s => EStateM.Result.error e s) = stOf ((f a).run s) from rfl]
    have h2 := hf a s
    omega
  | error e s =>
    have := hx st
    rw [hres] at this
    exact this

theorem mePres_kvGet (k : Bytes) : mePres (kvGet k) := fun _ => rfl

theorem mePres_kvPut (k : Bytes) (v : List Nat) : mePres (kvPut k v) :=
  fun _ => rfl

theorem mePres_kvDel (k : Bytes) : mePres (kvDel k) := fun _ => rfl

theorem mePres_kvDelRange (s e : Bytes) : mePres (kvDelRange s e) :=
  fun _ => rfl

theorem mePres_kvScanKeys (s e : Bytes) : mePres (kvScanKeys s e) :=
  fun _ => rfl

theorem mePres_nextPick : mePres nextPick := by
  intro st
  cases st with
  | mk kv log me picks =>
    cases picks with
    | nil => rfl
    | cons p rest => rfl

theorem meBdd_noteEntry {d : Nat} (h : d ≤ MAX_RECURSION_DEPTH - 1) :
    meBdd (noteEntry d) := by
  intro st
  show max st.maxEntry d ≤ _
  have := MAX_RECURSION_DEPTH
  omega

end Exec

namespace Exec

theorem mePres_read_table_element (env : Env) (v : Value) (key : String) :
    mePres (read_table_element env v key) := by
  unfold read_table_element
  split
  · split
    · exact mePres_pure _
    · exact mePres_throw _
  · split
    · exact mePres_throw _
    · split
      · exact mePres_throw _
      · split
        · exact mePres_throw _
        · split
          · exact mePres_bind (mePres_kvGet _) fun raw => by
              split
              · exact mePres_pure _
              · split
                · exact mePres_pure _
                · exact mePres_throw _
          · exact mePres_pure _
          · exact mePres_pure _
          · exact mePres_throw _
  · exact mePres_throw _

theorem mePres_delete_set (w : Walker) : mePres (delete_set w) := by
  unfold delete_set
  split
  · split
    · exact mePres_bind (mePres_kvDelRange _ _) fun _ => mePres_kvDelRange _ _
    · exact mePres_throw _
  · exact mePres_throw _

theorem mePres_delete_entry_from_set (w : Walker) (pk : PrimitiveValue) :
    mePres (delete_entry_from_set w pk) := by
  unfold delete_entry_from_set
  split
  · exact mePres_bind (mePres_kvDel _) fun _ => mePres_kvDelRange _ _
  · exact mePres_throw _

theorem mePres_walk_and_insert :
    ∀ fuel : Nat,
      (∀ w v, mePres (walk_and_insert fuel w v)) ∧
      (∀ w ms, mePres (walkInsertMembers fuel w ms)) ∧
      (∀ w fs, mePres (walkInsertFields fuel w fs)) := by
  intro fuel
  induction fuel with
  | zero =>
    exact ⟨fun _ _ => mePres_throw _, fun _ _ => mePres_throw _,
      fun _ _ => mePres_throw _⟩
  | succ f ih =>
    refine ⟨fun w v => ?_, fun w ms => ?_, fun w fs => ?_⟩
    · cases v with
      | null ty => exact mePres_kvDel _
      | primitive x => exact mePres_kvPut _ _
      | setRes mt w' =>
        exact mePres_bind (mePres_kvPut _ _) fun _ => mePres_throw _
      | setFresh mt members =>
        exact mePres_bind (mePres_kvPut _ _) fun _ =>
          mePres_bind (mePres_delete_set _) fun _ => ih.2.1 _ _
      | tableRes tn w' =>
        exact mePres_bind (mePres_kvPut _ _) fun _ => mePres_throw _
      | tableFresh tn fields =>
        exact mePres_bind (mePres_kvPut _ _) fun _ => ih.2.2 _ _
      | bool b => exact mePres_throw _
      | map e => exact mePres_throw _
      | list mt node => exact mePres_throw _
    · cases ms with
      | nil => exact mePres_pure _
      | cons e rest =>
        obtain ⟨pkv, member⟩ := e
        show mePres (walkInsertMembers (f + 1) w ((pkv, member) :: rest))
        unfold walkInsertMembers
        split
        · exact mePres_throw _
        · exact mePres_bind (mePres_kvPut _ _) fun _ => by
            split
            · exact mePres_throw _
            · exact mePres_bind (ih.1 _ _) fun _ => ih.2.1 _ _
    · cases fs with
      | nil => exact mePres_pure _
      | cons e rest =>
        obtain ⟨k, v⟩ := e
        show mePres (walkInsertFields (f + 1) w ((k, v) :: rest))
        unfold walkInsertFields
        split
        · exact mePres_throw _
        · exact mePres_bind (ih.1 _ _) fun _ => ih.2.2 _ _

end Exec

namespace Exec

set_option maxHeartbeats 1000000 in
theorem meBdd_exec (env : Env) :
    ∀ fuel : Nat,
      (∀ gi gp depth, meBdd (recursively_run_graph env fuel gi gp depth)) ∧
      (∀ g fr ti gp depth futs deps pre ret,
        meBdd (schedLoop env fuel g fr ti gp depth futs deps pre ret)) ∧
      (∀ n params gp ti depth,
        meBdd (run_node env fuel n params gp ti depth)) ∧
      (∀ k p0 acc ns depth,
        meBdd (reduceListAux env fuel k p0 acc ns depth)) ∧
      (∀ k p0 acc keys rp w tn depth,
        meBdd (reduceScanAux env fuel k p0 acc keys rp w tn depth)) := by
  intro fuel
  induction fuel with
  | zero =>
    exact ⟨fun _ _ _ => meBdd_throw _,
      fun _ _ _ _ _ _ _ _ _ => meBdd_throw _,
      fun _ _ _ _ _ => meBdd_throw _,
      fun _ _ _ _ _ => meBdd_throw _,
      fun _ _ _ _ _ _ _ _ => meBdd_throw _⟩
  | succ f ih =>
    obtain ⟨ihg, ihs, ihn, ihl, ihsc⟩ := ih
    refine ⟨fun gi gp depth => ?_,
      fun g fr ti gp depth futs deps pre ret => ?_,
      fun n params gp ti depth => ?_,
      fun k p0 acc ns depth => ?_,
      fun k p0 acc keys rp w tn depth => ?_⟩
    · unfold recursively_run_graph
      split
      · exact meBdd_throw _
      · rename_i hlt
        refine meBdd_bind (meBdd_noteEntry ?_) fun _ => ihs _ _ _ _ _ _ _ _ _
        simp only [MAX_RECURSION_DEPTH] at hlt ⊢
        omega
    · unfold schedLoop
      split
      · exact meBdd_pure _
      · refine meBdd_bind mePres_nextPick.meBdd fun pi => ?_
        refine meBdd_bind ?_ fun pr => ?_
        · split
          · exact meBdd_bind (ihn _ _ _ _ _) fun r => meBdd_pure _
          · exact meBdd_pure _
        · dsimp only
          split
          · exact meBdd_throw _
          · split
            · exact meBdd_throw _
            · exact ihs _ _ _ _ _ _ _ _ _
    · cases n <;>
        (simp only [run_node]
         repeat' first
          | exact meBdd_pure _
          | exact meBdd_throw _
          | exact (mePres_kvPut _ _).meBdd
          | exact (mePres_kvGet _).meBdd
          | exact (mePres_kvDel _).meBdd
          | exact (mePres_kvDelRange _ _).meBdd
          | exact (mePres_kvScanKeys _ _).meBdd
          | exact (mePres_read_table_element _ _ _).meBdd
          | exact (mePres_delete_set _).meBdd
          | exact (mePres_delete_entry_from_set _ _).meBdd
          | exact ((mePres_walk_and_insert _).1 _ _).meBdd
          | exact ihg _ _ _
          | exact ihl _ _ _ _ _
          | exact ihsc _ _ _ _ _ _ _ _
          | apply meBdd_bind
          | split
          | intro x)
    · cases ns with
      | nil => exact meBdd_pure _
      | cons n rest =>
        simp only [reduceListAux]
        refine meBdd_bind (ihg _ _ _) fun out => ?_
        split
        · exact meBdd_throw _
        · split
          · exact meBdd_pure _
          · exact ihl _ _ _ _ _
    · cases keys with
      | nil => exact meBdd_pure _
      | cons key rest =>
        simp only [reduceScanAux]
        split
        · exact meBdd_throw _
        · split
          · exact meBdd_throw _
          · refine meBdd_bind (ihg _ _ _) fun out => ?_
            split
            · exact meBdd_throw _
            · split
              · exact meBdd_pure _
              · exact ihsc _ _ _ _ _ _ _ _

end Exec

namespace Exec

/-- C8: entering a subgraph at depth ≥ MAX_RECURSION_DEPTH = 128 fails with
MaxRecursionDepthExceeded before running any node (state untouched); an
entry below the bound records its depth and schedules the graph's nodes at
depth + 1; a Call node invokes the callee at the caller's current depth
(itself one above the caller's entry depth), as does the subgraph of a
Reduce — so a Reduce reached at the bound fails the same way; and the
entered-depth watermark of any execution never exceeds
MAX_RECURSION_DEPTH - 1 = 127, making recursive graph execution
well-founded. -/
theorem recursion_depth_bounded (env : Env) (fuel gi k : Nat)
    (gp params : List Value) (p0 acc n : Value) (rest : List Value)
    (ti : Option VmTy) (depth : Nat) (st : ExecSt) :
    (depth ≥ MAX_RECURSION_DEPTH →
      (recursively_run_graph env (fuel + 1) gi gp depth).run st =
        EStateM.Result.error (.maxRecursionDepthExceeded depth) st) ∧
    (depth < MAX_RECURSION_DEPTH →
      (recursively_run_graph env (fuel + 1) gi gp depth).run st =
        (schedLoop env fuel (env.graphs.getD gi ⟨[], none⟩)
            (env.fireRules.getD gi []) (env.typeInfo.getD gi [])
            gp (depth + 1) (seedFutures (env.graphs.getD gi ⟨[], none⟩))
            (initDeps (env.graphs.getD gi ⟨[], none⟩))
            (initPrecond (env.graphs.getD gi ⟨[], none⟩)) none).run
          { st with maxEntry := max st.maxEntry depth }) ∧
    ((run_node env (fuel + 1) (.call k) params gp ti depth).run st =
      (recursively_run_graph env fuel k params depth).run st) ∧
    (depth ≥ MAX_RECURSION_DEPTH →
      (reduceListAux env (fuel + 2) k p0 acc (n :: rest) depth).run st =
        EStateM.Result.error (.maxRecursionDepthExceeded depth) st) ∧
    (stOf ((recursively_run_graph env fuel gi gp depth).run st)).maxEntry ≤
      max st.maxEntry (MAX_RECURSION_DEPTH - 1) := by
  have herr : ∀ (f2 k2 : Nat) (gp2 : List Value),
      depth ≥ MAX_RECURSION_DEPTH →
      (recursively_run_graph env (f2 + 1) k2 gp2 depth).run st =
        EStateM.Result.error (.maxRecursionDepthExceeded depth) st := by
    intro f2 k2 gp2 h
    simp only [recursively_run_graph]
    rw [if_pos h]
    rfl
  refine ⟨herr fuel gi gp, ?_, rfl, ?_, (meBdd_exec env fuel).1 gi gp depth st⟩
  · intro h
    simp only [recursively_run_graph]
    rw [if_neg (by omega)]
    rfl
  · intro h
    show ((recursively_run_graph env (fuel + 1) k [p0, acc, n] depth) >>=
        fun out =>
          match out with
          | none => throw (.panicked
              "inconsistency: ReduceList did not get an output from subgraph")
          | some o =>
            if o.is_null then pure acc
            else reduceListAux env (fuel + 1) k p0 o rest depth).run st = _
    rw [run_bind, herr fuel k [p0, acc, n] h]

end Exec

namespace Exec

theorem gen_range_bounds (r : Nat) :
    1 ≤ gen_range_1_20 r ∧ gen_range_1_20 r < 20 := by
  unfold gen_range_1_20
  have : r % 19 < 19 := Nat.mod_lt _ (by omega)
  omega

end Exec

namespace Exec

/-- The sleeps run_graph performs when attempts i, i+1, ... are n
consecutive conflicts (with the sleep hook installed). -/
def conflictSleeps (rng : Nat → Nat) (i : Nat) : Nat → List Nat
  | 0 => []
  | n + 1 => gen_range_1_20 (rng i) :: conflictSleeps rng (i + 1) n

theorem conflictSleeps_eq_map (rng : Nat → Nat) :
    ∀ (n i : Nat),
      conflictSleeps rng i n =
        (List.range n).map fun t => gen_range_1_20 (rng (i + t)) := by
  intro n
  induction n with
  | zero => intro i; rfl
  | succ m ih =>
    intro i
    rw [show conflictSleeps rng i (m + 1) =
        gen_range_1_20 (rng i) :: conflictSleeps rng (i + 1) m from rfl]
    rw [ih (i + 1), List.range_succ_eq_map, List.map_cons, List.map_map]
    refine congrArg₂ _ (by rw [Nat.add_zero]) ?_
    apply List.map_congr_left
    intro a ha
    show gen_range_1_20 (rng (i + 1 + a)) = gen_range_1_20 (rng (i + (a + 1)))
    have he : i + 1 + a = i + (a + 1) := by omega
    rw [he]

theorem run_graph_loop_spec (attempt : Nat → AttemptOutcome)
    (rng : Nat → Nat) (si : Bool) :
    ∀ (rem i : Nat) (sleeps : List Nat),
      ((run_graph_loop attempt rng si rem i sleeps).attempts ≤ i + rem) ∧
      ((∀ t, t < rem → attempt (i + t) = .conflict) →
        (run_graph_loop attempt rng si rem i sleeps).result =
          .error .conflictAfterRetries ∧
        (run_graph_loop attempt rng si rem i sleeps).attempts = i + rem ∧
        (run_graph_loop attempt rng si rem i sleeps).sleeps =
          sleeps ++ (if si then conflictSleeps rng i rem else [])) ∧
      (∀ j out, j < rem → (∀ t, t < j → attempt (i + t) = .conflict) →
        attempt (i + j) = .commitOk out →
        (run_graph_loop attempt rng si rem i sleeps).result = .ok out ∧
        (run_graph_loop attempt rng si rem i sleeps).attempts = i + j + 1 ∧
        (run_graph_loop attempt rng si rem i sleeps).sleeps =
          sleeps ++ (if si then conflictSleeps rng i j else [])) ∧
      (∀ j e, j < rem → (∀ t, t < j → attempt (i + t) = .conflict) →
        (attempt (i + j) = .beginFailed e ∨ attempt (i + j) = .runFailed e ∨
          attempt (i + j) = .commitFailed e) →
        (run_graph_loop attempt rng si rem i sleeps).result = .error e ∧
        (run_graph_loop attempt rng si rem i sleeps).attempts = i + j + 1) ∧
      (∀ d, d ∈ (run_graph_loop attempt rng si rem i sleeps).sleeps →
        d ∈ sleeps ∨ (1 ≤ d ∧ d < 20)) := by
  intro rem
  induction rem with
  | zero =>
    intro i sleeps
    refine ⟨by dsimp only [run_graph_loop]; omega,
      fun _ => ⟨rfl, by dsimp only [run_graph_loop]; omega,
        by dsimp only [run_graph_loop]; cases si <;> simp [conflictSleeps]⟩,
      fun j out hj => absurd hj (by omega),
      fun j e hj => absurd hj (by omega),
      fun d hd => Or.inl hd⟩
  | succ rem ih =>
    intro i sleeps
    cases hatt : attempt i with
    | conflict =>
      have hred : run_graph_loop attempt rng si (rem + 1) i sleeps =
          run_graph_loop attempt rng si rem (i + 1)
            (if si then sleeps ++ [gen_range_1_20 (rng i)] else sleeps) := by
        simp only [run_graph_loop, hatt]
      have ihx := ih (i + 1)
        (if si then sleeps ++ [gen_range_1_20 (rng i)] else sleeps)
      have hcs : ∀ m : Nat,
          ((if si then sleeps ++ [gen_range_1_20 (rng i)] else sleeps) ++
            (if si then conflictSleeps rng (i + 1) m else [])) =
          sleeps ++ (if si then conflictSleeps rng i (m + 1) else []) := by
        intro m
        cases si with
        | false => rfl
        | true =>
          show sleeps ++ [gen_range_1_20 (rng i)] ++
              conflictSleeps rng (i + 1) m = _
          rw [List.append_assoc]
          rfl
      refine ⟨?_, ?_, ?_, ?_, ?_⟩
      · rw [hred]
        have := ihx.1
        omega
      · intro h
        have hshift : ∀ t, t < rem → attempt (i + 1 + t) = .conflict := by
          intro t ht
          have hc := h (t + 1) (by omega)
          have harr : i + (t + 1) = i + 1 + t := by omega
          rwa [harr] at hc
        obtain ⟨h1, h2, h3⟩ := ihx.2.1 hshift
        rw [hred]
        exact ⟨h1, by omega, by rw [h3, hcs rem]⟩
      · intro j out hj hconf hterm
        cases j with
        | zero =>
          rw [Nat.add_zero] at hterm
          rw [hterm] at hatt
          exact absurd hatt (by simp)
        | succ j' =>
          have hshift : ∀ t, t < j' → attempt (i + 1 + t) = .conflict := by
            intro t ht
            have hc := hconf (t + 1) (by omega)
            have harr : i + (t + 1) = i + 1 + t := by omega
            rwa [harr] at hc
          have hterm' : attempt (i + 1 + j') = .commitOk out := by
            have harr : i + (j' + 1) = i + 1 + j' := by omega
            rwa [harr] at hterm
          obtain ⟨h1, h2, h3⟩ := ihx.2.2.1 j' out (by omega) hshift hterm'
          rw [hred]
          exact ⟨h1, by omega, by rw [h3, hcs j']⟩
      · intro j e hj hconf hterm
        cases j with
        | zero =>
          rw [Nat.add_zero] at hterm
          rcases hterm with h | h | h <;>
            (rw [h] at hatt; exact absurd hatt (by simp))
        | succ j' =>
          have hshift : ∀ t, t < j' → attempt (i + 1 + t) = .conflict := by
            intro t ht
            have hc := hconf (t + 1) (by omega)
            have harr : i + (t + 1) = i + 1 + t := by omega
            rwa [harr] at hc
          have hterm' : attempt (i + 1 + j') = .beginFailed e ∨
              attempt (i + 1 + j') = .runFailed e ∨
              attempt (i + 1 + j') = .commitFailed e := by
            have harr : i + (j' + 1) = i + 1 + j' := by omega
            rwa [harr] at hterm
          obtain ⟨h1, h2⟩ := ihx.2.2.2.1 j' e (by omega) hshift hterm'
          rw [hred]
          exact ⟨h1, by omega⟩
      · intro d hd
        rw [hred] at hd
        rcases ihx.2.2.2.2 d hd with hmem | hb
        · cases si with
          | false => exact Or.inl hmem
          | true =>
            simp only [if_true, List.mem_append, List.mem_singleton] at hmem
            rcases hmem with hmem | hmem
            · exact Or.inl hmem
            · subst hmem
              exact Or.inr (gen_range_bounds _)
        · exact Or.inr hb
    | beginFailed e =>
      have hred : run_graph_loop attempt rng si (rem + 1) i sleeps =
          ⟨.error e, sleeps, i + 1⟩ := by
        simp only [run_graph_loop, hatt]
      rw [hred]
      refine ⟨by dsimp only; omega, ?_, ?_, ?_, fun d hd => Or.inl hd⟩
      · intro h
        have hc := h 0 (by omega)
        rw [Nat.add_zero] at hc
        rw [hc] at hatt
        exact absurd hatt (by simp)
      · intro j out hj hconf hterm
        cases j with
        | zero =>
          rw [Nat.add_zero] at hterm
          rw [hterm] at hatt
          exact absurd hatt (by simp)
        | succ j' =>
          have hc := hconf 0 (by omega)
          rw [Nat.add_zero] at hc
          rw [hc] at hatt
          exact absurd hatt (by simp)
      · intro j e' hj hconf hterm
        cases j with
        | zero =>
          rw [Nat.add_zero] at hterm
          rcases hterm with h | h | h
          · rw [h] at hatt
            injection hatt with h2
            subst h2
            exact ⟨rfl, by dsimp only; try omega⟩
          · rw [h] at hatt
            exact absurd hatt (by simp)
          · rw [h] at hatt
            exact absurd hatt (by simp)
        | succ j' =>
          have hc := hconf 0 (by omega)
          rw [Nat.add_zero] at hc
          rw [hc] at hatt
          exact absurd hatt (by simp)
    | runFailed e =>
      have hred : run_graph_loop attempt rng si (rem + 1) i sleeps =
          ⟨.error e, sleeps, i + 1⟩ := by
        simp only [run_graph_loop, hatt]
      rw [hred]
      refine ⟨by dsimp only; omega, ?_, ?_, ?_, fun d hd => Or.inl hd⟩
      · intro h
        have hc := h 0 (by omega)
        rw [Nat.add_zero] at hc
        rw [hc] at hatt
        exact absurd hatt (by simp)
      · intro j out hj hconf hterm
        cases j with
        | zero =>
          rw [Nat.add_zero] at hterm
          rw [hterm] at hatt
          exact absurd hatt (by simp)
        | succ j' =>
          have hc := hconf 0 (by omega)
          rw [Nat.add_zero] at hc
          rw [hc] at hatt
          exact absurd hatt (by simp)
      · intro j e' hj hconf hterm
        cases j with
        | zero =>
          rw [Nat.add_zero] at hterm
          rcases hterm with h | h | h
          · rw [h] at hatt
            exact absurd hatt (by simp)
          · rw [h] at hatt
            injection hatt with h2
            subst h2
            exact ⟨rfl, by dsimp only; try omega⟩
          · rw [h] at hatt
            exact absurd hatt (by simp)
        | succ j' =>
          have hc := hconf 0 (by omega)
          rw [Nat.add_zero] at hc
          rw [hc] at hatt
          exact absurd hatt (by simp)
    | commitOk out =>
      have hred : run_graph_loop attempt rng si (rem + 1) i sleeps =
          ⟨.ok out, sleeps, i + 1⟩ := by
        simp only [run_graph_loop, hatt]
      rw [hred]
      refine ⟨by dsimp only; omega, ?_, ?_, ?_, fun d hd => Or.inl hd⟩
      · intro h
        have hc := h 0 (by omega)
        rw [Nat.add_zero] at hc
        rw [hc] at hatt
        exact absurd hatt (by simp)
      · intro j out' hj hconf hterm
        cases j with
        | zero =>
          rw [Nat.add_zero] at hterm
          rw [hterm] at hatt
          injection hatt with h2
          subst h2
          refine ⟨rfl, by dsimp only; try omega, ?_⟩
          cases si <;> simp [conflictSleeps]
        | succ j' =>
          have hc := hconf 0 (by omega)
          rw [Nat.add_zero] at hc
          rw [hc] at hatt
          exact absurd hatt (by simp)
      · intro j e' hj hconf hterm
        cases j with
        | zero =>
          rw [Nat.add_zero] at hterm
          rcases hterm with h | h | h <;>
            (rw [h] at hatt; exact absurd hatt (by simp))
        | succ j' =>
          have hc := hconf 0 (by omega)
          rw [Nat.add_zero] at hc
          rw [hc] at hatt
          exact absurd hatt (by simp)
    | commitFailed e =>
      have hred : run_graph_loop attempt rng si (rem + 1) i sleeps =
          ⟨.error e, sleeps, i + 1⟩ := by
        simp only [run_graph_loop, hatt]
      rw [hred]
      refine ⟨by dsimp only; omega, ?_, ?_, ?_, fun d hd => Or.inl hd⟩
      · intro h
        have hc := h 0 (by omega)
        rw [Nat.add_zero] at hc
        rw [hc] at hatt
        exact absurd hatt (by simp)
      · intro j out hj hconf hterm
        cases j with
        | zero =>
          rw [Nat.add_zero] at hterm
          rw [hterm] at hatt
          exact absurd hatt (by simp)
        | succ j' =>
          have hc := hconf 0 (by omega)
          rw [Nat.add_zero] at hc
          rw [hc] at hatt
          exact absurd hatt (by simp)
      · intro j e' hj hconf hterm
        cases j with
        | zero =>
          rw [Nat.add_zero] at hterm
          rcases hterm with h | h | h
          · rw [h] at hatt
            exact absurd hatt (by simp)
          · rw [h] at hatt
            exact absurd hatt (by simp)
          · rw [h] at hatt
            injection hatt with h2
            subst h2
            exact ⟨rfl, by dsimp only; try omega⟩
        | succ j' =>
          have hc := hconf 0 (by omega)
          rw [Nat.add_zero] at hc
          rw [hc] at hatt
          exact absurd hatt (by simp)

end Exec

namespace Exec

/-- C2: run_graph makes at most 10 attempts, each against its own attempt
outcome (one fresh transaction per attempt index). If the first j attempts
conflict and attempt j commits, its output is returned after j + 1
attempts; a begin/run/commit error at attempt j propagates immediately;
ten conflicts give ConflictAfterRetries after exactly 10 attempts. With the
sleep hook installed the loop sleeps once per conflict, for
gen_range_1_20 (rng i) = 1 + rng i % 19 milliseconds — every sleep lies in
[1, 20), and every duration in [1, 20) is attainable; without the hook it
never sleeps. -/
theorem run_graph_retry_contract (attempt : Nat → AttemptOutcome)
    (rng : Nat → Nat) (si : Bool) :
    ((run_graph attempt rng si).attempts ≤ 10) ∧
    ((∀ i, i < 10 → attempt i = .conflict) →
      (run_graph attempt rng si).result = .error .conflictAfterRetries ∧
      (run_graph attempt rng si).attempts = 10 ∧
      (run_graph attempt rng si).sleeps =
        (if si then (List.range 10).map fun i => gen_range_1_20 (rng i)
         else [])) ∧
    (∀ j out, j < 10 → (∀ i, i < j → attempt i = .conflict) →
      attempt j = .commitOk out →
      (run_graph attempt rng si).result = .ok out ∧
      (run_graph attempt rng si).attempts = j + 1 ∧
      (run_graph attempt rng si).sleeps =
        (if si then (List.range j).map fun i => gen_range_1_20 (rng i)
         else [])) ∧
    (∀ j e, j < 10 → (∀ i, i < j → attempt i = .conflict) →
      (attempt j = .beginFailed e ∨ attempt j = .runFailed e ∨
        attempt j = .commitFailed e) →
      (run_graph attempt rng si).result = .error e ∧
      (run_graph attempt rng si).attempts = j + 1) ∧
    (∀ d, d ∈ (run_graph attempt rng si).sleeps → 1 ≤ d ∧ d < 20) ∧
    (∀ d, 1 ≤ d → d < 20 → gen_range_1_20 (d - 1) = d) := by
  have hs := run_graph_loop_spec attempt rng si 10 0 []
  have hmap : ∀ n : Nat,
      conflictSleeps rng 0 n =
        (List.range n).map fun t => gen_range_1_20 (rng t) := by
    intro n
    rw [conflictSleeps_eq_map]
    apply List.map_congr_left
    intro a _
    rw [Nat.zero_add]
  have hrg : run_graph attempt rng si =
      run_graph_loop attempt rng si 10 0 [] := rfl
  refine ⟨?_, ?_, ?_, ?_, ?_, ?_⟩
  · rw [hrg]
    have := hs.1
    omega
  · intro h
    obtain ⟨h1, h2, h3⟩ := hs.2.1 fun t ht => by
      rw [Nat.zero_add]
      exact h t ht
    rw [hrg]
    refine ⟨h1, by omega, ?_⟩
    rw [h3, List.nil_append]
    cases si with
    | false => rfl
    | true => rw [if_pos rfl, if_pos rfl, hmap]
  · intro j out hj hconf hterm
    obtain ⟨h1, h2, h3⟩ := hs.2.2.1 j out hj
      (fun t ht => by rw [Nat.zero_add]; exact hconf t ht)
      (by rw [Nat.zero_add]; exact hterm)
    rw [hrg]
    refine ⟨h1, by omega, ?_⟩
    rw [h3, List.nil_append]
    cases si with
    | false => rfl
    | true => rw [if_pos rfl, if_pos rfl, hmap]
  · intro j e hj hconf hterm
    obtain ⟨h1, h2⟩ := hs.2.2.2.1 j e hj
      (fun t ht => by rw [Nat.zero_add]; exact hconf t ht)
      (by rw [Nat.zero_add]; exact hterm)
    rw [hrg]
    exact ⟨h1, by omega⟩
  · intro d hd
    rw [hrg] at hd
    rcases hs.2.2.2.2 d hd with hmem | hb
    · exact absurd hmem (by simp)
    · exact hb
  · intro d h1 h2
    unfold gen_range_1_20
    omega

end Exec

namespace Exec

/-- A graph whose Select is fed by two distinct producer nodes (both
eventually fire). -/
def gC6a : TwGraph :=
  ⟨[(.loadConst 0, [], none), (.loadConst 1, [], none),
    (.select, [0, 1], none)], some 2⟩

/-- A graph whose single producer feeds both Select inputs (both slots fire
in the same propagation batch). -/
def gC6b : TwGraph :=
  ⟨[(.loadConst 0, [], none), (.select, [0, 0], none)], some 1⟩

/-- A graph where only one Select dependency can ever fire: the second
producer is gated behind a false precondition. -/
def gC6c : TwGraph :=
  ⟨[(.loadConst 0, [], none), (.loadConst 1, [], some 2),
    (.loadConst 2, [], none), (.select, [0, 1], none)], some 3⟩

def envC6 : Env :=
  { graphs := [gC6a, gC6b, gC6c],
    consts := [.primitive (.int64 10), .primitive (.int64 11), .bool false],
    types := [], idents := [], schema := ⟨[], []⟩,
    typeInfo := [[], [], []],
    fireRules := [generate_fire_rules gC6a, generate_fire_rules gC6b,
      generate_fire_rules gC6c],
    f64add := fun _ _ => 0, f64sub := fun _ _ => 0 }

/-- C6: a Select fires exactly once on the first dependency to satisfy it —
in the gated graph the Select's value is the sole firing dependency's
(first conjunct). But a subsequent firing only yields
BothSelectCandidatesFired when one producer fills both inputs in the same
propagation batch (second conjunct); when the second firing comes from a
distinct producer in a later batch, the parameter store into the
already-emptied dependency slots panics (index out of bounds) instead
(third conjunct) — the claimed error is not produced on that path. -/
theorem select_fire_behavior :
    (recursively_run_graph envC6 20 2 [] 0).run stW =
      EStateM.Result.ok (some (.primitive (.int64 10))) stW ∧
    (recursively_run_graph envC6 20 1 [] 0).run stW =
      EStateM.Result.error .bothSelectCandidatesFired stW ∧
    (recursively_run_graph envC6 20 0 [] 0).run stW =
      EStateM.Result.error (.panicked "index out of bounds") stW :=
  ⟨rfl, rfl, rfl⟩

end Exec

namespace Exec

theorem byteLe_self_append : ∀ s t : Bytes, byteLe s (s ++ t) = true := by
  intro s t
  induction s with
  | nil => rfl
  | cons a as ih => simp [byteLe, ih]

theorem byteLt_append_lt :
    ∀ (p : Bytes) (x y : Nat) (a b : Bytes), x < y →
      byteLt (p ++ x :: a) (p ++ y :: b) = true := by
  intro p x y a b hxy
  induction p with
  | nil => simp [byteLt, hxy]
  | cons c cs ih => simp [byteLt, ih]

theorem kvLookup_kvEraseRange (s e k : Bytes) (kv : Kv)
    (hk : inRange s e k = true) :
    kvLookup (kvEraseRange s e kv) k = none := by
  induction kv with
  | nil => rfl
  | cons ent rest ih =>
    by_cases hr : inRange s e ent.1 = true
    · simpa [kvEraseRange, List.filter, hr] using ih
    · have hne : (k == ent.1) = false := by
        rw [beq_eq_false_iff_ne]
        intro hkk
        rw [← hkk] at hr
        exact hr hk
      simp only [kvEraseRange, List.filter] at ih ⊢
      rw [show (!inRange s e ent.1) = true by
        cases hb : inRange s e ent.1
        · rfl
        · exact absurd hb hr]
      simp only [kvLookup, List.lookup, hne] at ih ⊢
      exact ih

end Exec

namespace Exec

/-- C1: on a resident set of member type tn whose primary key is pkName and
which has another primitive field fName (any walker of the §4.2 key shape;
an export walker is the pfx = [] instance), InsertIntoSet of a fresh member
{pkName ↦ pkv, fName ↦ fv} succeeds, GetSetElement with pkv then returns a
resident member table whose GetField on fName reads back exactly the
inserted fv; after DeleteFromSet with pkv, the same GetSetElement/GetField
read finds no stored value — the member subtree lies inside the deleted
range — and returns the typed Null of fName's field type. -/
theorem set_insert_get_delete_roundtrip (env : Env) (fi : Nat) (tn pkName fName : String)
    (pkTy fTy : PrimitiveType) (pfx skSet skM k1 k2 : Bytes)
    (pkv fv : PrimitiveValue) (gp : List Value) (ti : Option VmTy)
    (depth : Nat) (st : ExecSt) (fuel : Nat)
    (hne : pkName ≠ fName)
    (hident : env.idents.get? fi = some fName)
    (htype : env.schema.types.lookup tn =
      some ⟨tn, [(pkName, (.primitive pkTy, [.primary])),
                 (fName, (.primitive fTy, []))]⟩) :
    ∃ (st1 : ExecSt) (wM wf : Walker),
      (run_node env (fuel + 5) .insertIntoSet
          [Value.tableFresh tn [(pkName, .primitive pkv), (fName, .primitive fv)],
           Value.setRes (.table tn)
             ⟨pfx, .mk skSet false false false
               (some (.mk skM false false false none
                 [(pkName, .mk k1 false false false none []),
                  (fName, .mk k2 false false false none [])])) []⟩]
          gp ti depth).run st = .ok none st1 ∧
      (run_node env (fuel + 5) .getSetElement
          [.primitive pkv,
           Value.setRes (.table tn)
             ⟨pfx, .mk skSet false false false
               (some (.mk skM false false false none
                 [(pkName, .mk k1 false false false none []),
                  (fName, .mk k2 false false false none [])])) []⟩]
          gp ti depth).run st1 = .ok (some (.tableRes tn wM)) st1 ∧
      wM.enter_field fName = some wf ∧
      (run_node env (fuel + 5) (.getField fi) [.tableRes tn wM] gp ti
          depth).run st1 =
        .ok (some (.primitive fv))
          { st1 with log := st1.log ++ [KvOp.get wf.generate_key] } ∧
      ∃ st3 : ExecSt,
      (run_node env (fuel + 5) .deleteFromSet
          [.primitive pkv,
           Value.setRes (.table tn)
             ⟨pfx, .mk skSet false false false
               (some (.mk skM false false false none
                 [(pkName, .mk k1 false false false none []),
                  (fName, .mk k2 false false false none [])])) []⟩]
          gp ti depth).run
          { st1 with log := st1.log ++ [KvOp.get wf.generate_key] } =
        .ok none st3 ∧
      (run_node env (fuel + 5) .getSetElement
          [.primitive pkv,
           Value.setRes (.table tn)
             ⟨pfx, .mk skSet false false false
               (some (.mk skM false false false none
                 [(pkName, .mk k1 false false false none []),
                  (fName, .mk k2 false false false none [])])) []⟩]
          gp ti depth).run st3 = .ok (some (.tableRes tn wM)) st3 ∧
      kvLookup st3.kv wf.generate_key = none ∧
      (∀ st' : ExecSt, kvLookup st'.kv wf.generate_key = none →
        (run_node env (fuel + 5) (.getField fi) [.tableRes tn wM] gp ti
            depth).run st' =
          .ok (some (.null (.primitive fTy)))
            { st' with log := st'.log ++ [KvOp.get wf.generate_key] }) := by
  have hbf : (fName == pkName) = false := by
    rw [beq_eq_false_iff_ne]
    exact fun h => hne h.symm
  exact ⟨_, _, _, by
    simp only [run_node, VmTy.ofValue, VmTy.set_primary_key, htype,
      List.findSome?, annsPrimary, List.any_cons, List.any_nil,
      FieldAnn.is_primary, Bool.or_false, read_table_element, List.lookup,
      beq_self_eq_true, hbf, walk_and_insert, walkInsertFields,
      Walker.set_fast_scan_prefix, Walker.enter_set_raw, Walker.enter_field,
      StorageNode.setChild, StorageNode.children, StorageNode.flattened,
      StorageNode.key, Walker.generate_key, Option.map, kvPut, kvDel,
      if_true, if_false, Bool.false_eq_true, TwGraphNode.is_optional_chained,
      Bool.false_and]
    rfl,
   rfl,
   by
    simp only [Walker.enter_field, StorageNode.children, StorageNode.flattened,
      StorageNode.key, List.lookup, beq_self_eq_true, hbf, Option.map,
      if_true, if_false, Bool.false_eq_true, Walker.generate_key]
    rfl,
   by
    simp only [run_node, hident, read_table_element, htype, List.lookup,
      beq_self_eq_true, hbf, Walker.enter_field, StorageNode.children,
      StorageNode.flattened, StorageNode.key, Walker.generate_key,
      Option.map, if_true, if_false,
      Bool.false_eq_true, TwGraphNode.is_optional_chained, Bool.false_and,
      List.any_cons, List.any_nil, Value.is_null, Bool.or_false,
      Bool.true_and]
    rw [run_bind, run_bind, kvGet_run]
    simp only [kvLookup, List.lookup, beq_self_eq_true, decodePrim_encodePrim]
    rfl,
   _, rfl, rfl,
   by
    simp only [Walker.generate_key, StorageNode.key]
    apply kvLookup_kvEraseRange
    simp only [List.append_assoc, inRange, Bool.and_eq_true]
    have he1 : (pfx ++ (skSet ++ ([dataTag] ++
          (pkv.serialize_for_key_component ++ ([0] ++ (skM ++ k2))))) : Bytes) =
        (pfx ++ (skSet ++ ([dataTag] ++
          (pkv.serialize_for_key_component ++ [0])))) ++ (skM ++ k2) := by
      simp only [List.append_assoc]
    have he2 : (pfx ++ (skSet ++ ([dataTag] ++
          (pkv.serialize_for_key_component ++ ([0] ++ (skM ++ k2))))) : Bytes) =
        (pfx ++ (skSet ++ ([dataTag] ++ pkv.serialize_for_key_component))) ++
          (0 :: (skM ++ k2)) := by
      simp only [List.append_assoc, List.singleton_append, List.cons_append,
        List.nil_append]
    have he3 : (pfx ++ (skSet ++ ([dataTag] ++
          (pkv.serialize_for_key_component ++ [1]))) : Bytes) =
        (pfx ++ (skSet ++ ([dataTag] ++ pkv.serialize_for_key_component))) ++
          (1 :: ([] : Bytes)) := by
      simp only [List.append_assoc, List.singleton_append, List.cons_append,
        List.nil_append]
    constructor
    · rw [he1]
      exact byteLe_self_append _ _
    · rw [he2, he3]
      exact byteLt_append_lt _ 0 1 _ _ (by omega),
   by
    intro st' hnone
    simp only [kvLookup, Walker.generate_key, StorageNode.key] at hnone
    simp only [run_node, hident, read_table_element, htype, List.lookup,
      beq_self_eq_true, hbf, Walker.enter_field, StorageNode.children,
      StorageNode.flattened, StorageNode.key, Walker.generate_key,
      Option.map, if_true, if_false,
      Bool.false_eq_true, TwGraphNode.is_optional_chained, Bool.false_and,
      List.any_cons, List.any_nil, Value.is_null, Bool.or_false,
      Bool.true_and]
    rw [run_bind, run_bind, kvGet_run]
    simp only [kvLookup] at hnone ⊢
    rw [hnone]
    rfl⟩

end Exec

namespace Exec

def envC1 : Env :=
  { graphs := [], consts := [], types := [], idents := ["b"],
    schema := ⟨[("T", ⟨"T", [("a", (.primitive .string, [.primary])),
                             ("b", (.primitive .int64, []))]⟩)],
               [("items", .set (.table "T"))]⟩,
    typeInfo := [], fireRules := [],
    f64add := fun _ _ => 0, f64sub := fun _ _ => 0 }

theorem set_insert_get_delete_roundtrip_witness :
    ∃ (st1 : ExecSt) (wM wf : Walker),
      (run_node envC1 5 .insertIntoSet
          [Value.tableFresh "T" [("a", .primitive (.string "k")),
                                 ("b", .primitive (.int64 42))],
           Value.setRes (.table "T")
             ⟨[], .mk [7] false false false
               (some (.mk [8] false false false none
                 [("a", .mk [1] false false false none []),
                  ("b", .mk [2] false false false none [])])) []⟩]
          [] none 0).run stW = .ok none st1 ∧
      (run_node envC1 5 .getSetElement
          [.primitive (.string "k"),
           Value.setRes (.table "T")
             ⟨[], .mk [7] false false false
               (some (.mk [8] false false false none
                 [("a", .mk [1] false false false none []),
                  ("b", .mk [2] false false false none [])])) []⟩]
          [] none 0).run st1 = .ok (some (.tableRes "T" wM)) st1 ∧
      wM.enter_field "b" = some wf ∧
      (run_node envC1 5 (.getField 0) [.tableRes "T" wM] [] none 0).run st1 =
        .ok (some (.primitive (.int64 42)))
          { st1 with log := st1.log ++ [KvOp.get wf.generate_key] } ∧
      ∃ st3 : ExecSt,
      (run_node envC1 5 .deleteFromSet
          [.primitive (.string "k"),
           Value.setRes (.table "T")
             ⟨[], .mk [7] false false false
               (some (.mk [8] false false false none
                 [("a", .mk [1] false false false none []),
                  ("b", .mk [2] false false false none [])])) []⟩]
          [] none 0).run
          { st1 with log := st1.log ++ [KvOp.get wf.generate_key] } =
        .ok none st3 ∧
      (run_node envC1 5 .getSetElement
          [.primitive (.string "k"),
           Value.setRes (.table "T")
             ⟨[], .mk [7] false false false
               (some (.mk [8] false false false none
                 [("a", .mk [1] false false false none []),
                  ("b", .mk [2] false false false none [])])) []⟩]
          [] none 0).run st3 = .ok (some (.tableRes "T" wM)) st3 ∧
      kvLookup st3.kv wf.generate_key = none ∧
      (∀ st' : ExecSt, kvLookup st'.kv wf.generate_key = none →
        (run_node envC1 5 (.getField 0) [.tableRes "T" wM] [] none 0).run
            st' =
          .ok (some (.null (.primitive .int64)))
            { st' with log := st'.log ++ [KvOp.get wf.generate_key] }) :=
  set_insert_get_delete_roundtrip envC1 0 "T" "a" "b" .string .int64
    [] [7] [8] [1] [2] (.string "k") (.int64 42) [] none 0 stW 0
    (by decide) rfl rfl

end Exec
